import Mathlib

/-!
# Verification of the gcode parser/engine (leftmike/gcode)

A shallow embedding of the dialect-aware G-code parser/evaluator and of the
motion/state engine, translated from the Go sources:

* `parser.go` (latest revision, the one with `Features` and the action layer)
  for the value model, the expression sublanguage, precedence adjustment,
  the byte-level parser and the action executor;
* `parameters.go` for the numeric parameter store with reserved slots;
* `engine.go` for the reference-frame state and the motion helpers;
* `arc.go` for arc radius/center derivation and arc interpolation.

Numbers: the Go code stores `Number` as `float64`.  The parser/engine
arithmetic that the theorems below touch is pure field arithmetic, which we
model exactly over `ℚ` (keeping everything computable and decidable); the
arc interpolator is genuinely irrational (square roots and trigonometry), so
its geometry is modelled over `ℝ` in a separate section.  Loops in the Go
source that are not structurally recursive (the precedence-rotation pass and
the recursive-descent parser) are modelled with an explicit fuel parameter;
the fuel is irrelevant on every input considered by the theorems, which is
proved where needed.
-/

namespace Gcode

/-- Dialect feature flags (`Features` bitmask in the source, `BeagleG`,
`LinuxCNC`, `RepRap`); modelled as three booleans. -/
structure Features where
  beagleG : Bool
  linuxCNC : Bool
  repRap : Bool
deriving DecidableEq, Repr

/-- `Features.HasBeagleG`. -/
def Features.hasBeagleG (f : Features) : Bool := f.beagleG

/-- `Features.HasLinuxCNC`. -/
def Features.hasLinuxCNC (f : Features) : Bool := f.linuxCNC

/-- `Features.HasRepRap`. -/
def Features.hasRepRap (f : Features) : Bool := f.repRap

/-- The tagged value variant (`Value` interface with `Number`, `Name`,
`String` implementations in the source). -/
inductive Value where
  | num : ℚ → Value
  | name : String → Value
  | str : String → Value
deriving DecidableEq, Repr

/-- `Value.AsNumber`. -/
def Value.asNumber : Value → Option ℚ
  | .num n => some n
  | _ => none

/-- `Value.AsName`. -/
def Value.asName : Value → Option String
  | .name n => some n
  | _ => none

/-- `Value.AsString`. -/
def Value.asString : Value → Option String
  | .str s => some s
  | _ => none

/-- `minimumDelta = 0.0001`. -/
def minimumDelta : ℚ := 1 / 10000

/-- `math.Abs` on the exact numbers (definitionally reducible, unlike the
lattice `|·|`; `absQ_eq_abs` below identifies the two). -/
def absQ (q : ℚ) : ℚ := if q < 0 then -q else q

theorem absQ_eq_abs (q : ℚ) : absQ q = |q| := by
  unfold absQ
  rcases lt_or_le q 0 with h | h
  · rw [if_pos h, abs_of_neg h]
  · rw [if_neg (not_lt.mpr h), abs_of_nonneg h]

/-- `Number.Equal` exactly as written in the source:
`delta := math.Abs(float64(n)) - math.Abs(float64(n2));
return math.Abs(delta) < minimumDelta`.
Note the source computes `| |n| - |n2| |`, not `|n - n2|`. -/
def Number.Equal (n n2 : ℚ) : Bool :=
  let delta := absQ n - absQ n2
  absQ delta < minimumDelta

/-- Truncation toward zero, as Go `int(f)` / `math.Trunc` on the numbers
the parser manipulates. -/
def truncQ (q : ℚ) : ℤ := q.num.tdiv q.den

/-- `Number.AsInteger`: `return int(n), n.Equal(Number(math.Trunc(float64(n))))`. -/
def Number.AsInteger (n : ℚ) : ℤ × Bool :=
  (truncQ n, Number.Equal n (truncQ n))

/-- The operator enumeration (`op` in the source). -/
inductive Op where
  | negateOp
  | notOp
  | noOp
  | andOp
  | orOp
  | equalOp
  | notEqualOp
  | greaterThanOp
  | greaterEqualOp
  | lessThanOp
  | lessEqualOp
  | subtractOp
  | addOp
  | divideOp
  | multiplyOp
deriving DecidableEq, Repr

open Op

/-- The `opPrecedence` table. -/
def Op.precedence : Op → ℤ
  | orOp => 1
  | andOp => 2
  | notOp => 3
  | equalOp => 4
  | notEqualOp => 4
  | greaterThanOp => 5
  | greaterEqualOp => 5
  | lessThanOp => 5
  | lessEqualOp => 5
  | subtractOp => 7
  | addOp => 7
  | divideOp => 8
  | multiplyOp => 8
  | negateOp => 9
  | noOp => 11

/-- The twelve binary operators of the expression sublanguage (the operators
built by the `<op>` production; `negateOp`, `notOp` and `noOp` are unary). -/
def Op.isBinary : Op → Bool
  | negateOp | notOp | noOp => false
  | _ => true

/-- Expression nodes: numeric/name/string literals (`Number`, `Name`,
`String` as `expression`s), parameter references (`param`), unary and binary
nodes, and function calls (`call`).  As in the source's `call` struct, a
call node stores the resolved function (`fn callFunc`) as data together with
the argument expressions. -/
inductive Expr where
  | num : ℚ → Expr
  | name : String → Expr
  | str : String → Expr
  | param : ℕ → Expr → Expr
  | unary : Op → Expr → Expr
  | binary : Op → Expr → Expr → Expr
  | call : (List Value → Except String Value) → List Expr → Expr

/-- Node count of an expression, used to bound the precedence-rotation
fuel. -/
def Expr.size : Expr → ℕ
  | .num _ | .name _ | .str _ => 1
  | .param _ e => 1 + e.size
  | .unary _ e => 1 + e.size
  | .binary _ l r => 1 + l.size + r.size
  | .call _ args => 1 + sizeList args
where
  sizeList : List Expr → ℕ
  | [] => 0
  | e :: rest => e.size + sizeList rest

/-- `adjustPrecedence`, with explicit fuel for the non-structural
re-rotation calls (`return adjustPrecedence(b)` after a rotation).  Each Go
case is translated clause for clause:

* unary: adjust the child; a `noOp` (grouping) node is returned as is;
  otherwise if the child is a binary of lower precedence, rotate
  (`- [2 * 3] --> [- 2] * 3`) and re-adjust;
* binary: adjust both children; if the right child is a binary with
  precedence `≤` the parent's, rotate left (`1 * [2 + 3] --> [1 * 2] + 3`)
  and re-adjust; otherwise if the left child is a binary with precedence
  `<` the parent's, rotate right (`[1 + 2] * 3 --> 1 + [2 * 3]`) and
  re-adjust;
* call: adjust every argument;
* all other nodes are returned unchanged. -/
def adjustP : ℕ → Expr → Expr
  | 0, e => e
  | fuel + 1, .unary op e =>
    let e1 := adjustP fuel e
    if op = noOp then .unary op e1
    else
      match e1 with
      | .binary bop bl br =>
        if bop.precedence < op.precedence then
          adjustP fuel (.binary bop (.unary op bl) br)
        else .unary op (.binary bop bl br)
      | e2 => .unary op e2
  | fuel + 1, .binary op l r =>
    let l1 := adjustP fuel l
    let r1 := adjustP fuel r
    match r1 with
    | .binary bop bl br =>
      if bop.precedence ≤ op.precedence then
        adjustP fuel (.binary bop (.binary op l1 bl) br)
      else
        adjustLeft fuel op l1 (.binary bop bl br)
    | r2 => adjustLeft fuel op l1 r2
  | fuel + 1, .call fn args => .call fn (args.map (adjustP fuel))
  | _ + 1, e => e
where
  /-- The left-child rotation check shared by the two fall-through paths of
  the binary case. -/
  adjustLeft (fuel : ℕ) (op : Op) (l1 r2 : Expr) : Expr :=
    match l1 with
    | .binary bop bl br =>
      if bop.precedence < op.precedence then
        adjustP fuel (.binary bop bl (.binary op br r2))
      else .binary op (.binary bop bl br) r2
    | l2 => .binary op l2 r2

/-- `adjustPrecedence` with a fuel bound sufficient for the rotation pass to
reach its fixed point on the inputs arising below. -/
def adjustPrecedence (e : Expr) : Expr :=
  adjustP (e.size * e.size + 1) e

/-- A letter-and-value code (`Code` struct). -/
structure Code where
  letter : Char
  value : Value
deriving Repr

/-- The assignment operators (`assignOp`). -/
inductive AssignOp where
  | assign
  | assignPlus
  | assignMinus
  | assignTimes
  | assignDivide
  | plusPlus
  | minusMinus
deriving DecidableEq, Repr

/-- Parser errors.  The source signals errors by panicking with an `error`
value which `Parse` recovers; end of input (`io.EOF`) is a distinguished
result.  The location prefix added by `Parser.error` is omitted (it never
affects control flow). -/
inductive PErr where
  | eof
  | msg : String → PErr
deriving DecidableEq, Repr

/-- The two assignment actions (`numAssignAction`, `nameAssignAction`).
They are split off from `Action` because the bodies of an `IF` construct
are always assignments (the parser only ever builds assignments there), so
storing them as such keeps the evaluator structurally recursive. -/
inductive AssignAct where
  | anum : ℤ → AssignOp → Expr → AssignAct
  | aname : String → AssignOp → Expr → AssignAct

/-- The executable units produced by the parser (the `action` interface and
its implementations `codeAction`, `numAssignAction`/`nameAssignAction`
(via `assignAct`), `commentAction`, `whileActionBeagleG`,
`endActionBeagleG`, `ifActionBeagleG` and `eolAction`).  In the source a
`whileActionBeagleG` stores its body with the while action itself appended
as the last element (a cyclic structure); here `whileAct` stores the body
without that trailing self-reference and its evaluation re-appends itself
on push, which yields the same pushed list.  The source's parallel
`elseifTests`/`elseifAssigns` slices are stored as a list of pairs. -/
inductive Action where
  | codeAct : Char → Expr → Action
  | assignAct : AssignAct → Action
  | commentAct : String → String → Bool → Action
  | whileAct : Expr → List Action → Action
  | endAct : Action
  | ifAct : Expr → AssignAct → List (Expr × AssignAct) → Option AssignAct → Action
  | eol : Action

/-- `lineState`. -/
inductive LineState where
  | beforeLineNum
  | afterLineNum
  | inBody
  | afterChecksum
deriving DecidableEq, Repr

/-- The parser state (`Parser` struct plus its scanner position).  The byte
scanner is modelled by the remaining input; the two output writers by
accumulated strings together with a flag for whether each writer was
supplied (the source checks `p.OutW == nil`).  The global parameter stores
are reached in the source through injected function pointers (wired by the
engine to its own store); here they live in the state directly. -/
structure Parser where
  features : Features
  input : List Char
  hasOutW : Bool
  hasErrW : Bool
  outW : String
  errW : String
  numParams : ℤ → Option ℚ
  nameParams : String → Option Value
  lineState : LineState
  physicalLine : ℤ
  virtualLine : ℤ
  stack : List (List Action)

/-- `Parser.getNumParam` (lookup through the injected store; a missing
parameter is an error). -/
def Parser.getNumParam (p : Parser) (num : ℤ) : Except PErr ℚ :=
  match p.numParams num with
  | some val => .ok val
  | none => .error (.msg "global number parameter not found")

/-- `Parser.setNumParam` (store through the injected setter; the general
store accepts every write). -/
def Parser.setNumParam (p : Parser) (num : ℤ) (val : ℚ) : Parser :=
  { p with numParams := fun n => if n = num then some val else p.numParams n }

/-- `Parser.getNameParam`. -/
def Parser.getNameParam (p : Parser) (name : String) : Except PErr Value :=
  match p.nameParams name with
  | some val => .ok val
  | none => .error (.msg "global name parameter not found")

/-- `Parser.setNameParam`. -/
def Parser.setNameParam (p : Parser) (name : String) (val : Value) : Parser :=
  { p with nameParams := fun n => if n = name then some val else p.nameParams n }

/-- `Parser.wantNumber`. -/
def wantNumber (v : Value) : Except PErr ℚ :=
  match v.asNumber with
  | some n => .ok n
  | none => .error (.msg "expected a number")

/-- `logicNumber`. -/
def logicNumber (n : ℚ) : Value :=
  if n = 0 then .num 0 else .num 1

/-- `logicBool`. -/
def logicBool (b : Bool) : Value :=
  if b then .num 1 else .num 0

/-- The numeric dereference loop of `param.evaluate`: `refs` times, check
the current number is a positive integer and look it up. -/
def derefNum (p : Parser) : ℕ → ℚ → Except PErr ℚ
  | 0, num => .ok num
  | refs + 1, num =>
    let (n, ok) := Number.AsInteger num
    if !ok || n < 1 then
      .error (.msg "number parameter must be a positive integer")
    else do
      derefNum p refs (← p.getNumParam n)

/-- The name dereference loop of `param.evaluate`. -/
def derefName (p : Parser) : ℕ → Value → Except PErr Value
  | 0, v => .ok v
  | refs + 1, v =>
    match v.asName with
    | some n => do derefName p refs (← p.getNameParam n)
    | none => .error (.msg "expected a name parameter")

mutual

/-- `expression.evaluate` over the various node kinds, clause for clause
(`Number/Name/String.evaluate`, `param.evaluate`, `unary.evaluate`,
`binary.evaluate`, `call.evaluate`).  `&&`/`||` short-circuit and normalise
to 0/1; the comparison operators use exact (`==`-style) comparison, not the
tolerance; a unary operator appearing as binary (or vice versa) panics in
the source and is an error here. -/
def evalExpr (p : Parser) : Expr → Except PErr Value
  | .num n => .ok (.num n)
  | .name n => .ok (.name n)
  | .str s => .ok (.str s)
  | .param refs inner => do
    let v ← evalExpr p inner
    match v.asNumber with
    | some num => (derefNum p refs num).map .num
    | none => derefName p refs v
  | .unary op e =>
    match op with
    | negateOp => do
      let n ← wantNumber (← evalExpr p e)
      .ok (.num (-n))
    | notOp => do
      let n ← wantNumber (← evalExpr p e)
      if n = 0 then .ok (.num 1) else .ok (.num 0)
    | noOp => evalExpr p e
    | _ => .error (.msg "unexpected unary op")
  | .binary op l r =>
    match op with
    | andOp => do
      let n ← wantNumber (← evalExpr p l)
      if n = 0 then .ok (.num 0)
      else do .ok (logicNumber (← wantNumber (← evalExpr p r)))
    | orOp => do
      let n ← wantNumber (← evalExpr p l)
      if n ≠ 0 then .ok (.num 1)
      else do .ok (logicNumber (← wantNumber (← evalExpr p r)))
    | equalOp => do
      .ok (logicBool ((← wantNumber (← evalExpr p l)) = (← wantNumber (← evalExpr p r))))
    | notEqualOp => do
      .ok (logicBool ((← wantNumber (← evalExpr p l)) ≠ (← wantNumber (← evalExpr p r))))
    | greaterThanOp => do
      .ok (logicBool ((← wantNumber (← evalExpr p l)) > (← wantNumber (← evalExpr p r))))
    | greaterEqualOp => do
      .ok (logicBool ((← wantNumber (← evalExpr p l)) ≥ (← wantNumber (← evalExpr p r))))
    | lessThanOp => do
      .ok (logicBool ((← wantNumber (← evalExpr p l)) < (← wantNumber (← evalExpr p r))))
    | lessEqualOp => do
      .ok (logicBool ((← wantNumber (← evalExpr p l)) ≤ (← wantNumber (← evalExpr p r))))
    | subtractOp => do
      .ok (.num ((← wantNumber (← evalExpr p l)) - (← wantNumber (← evalExpr p r))))
    | addOp => do
      .ok (.num ((← wantNumber (← evalExpr p l)) + (← wantNumber (← evalExpr p r))))
    | divideOp => do
      .ok (.num ((← wantNumber (← evalExpr p l)) / (← wantNumber (← evalExpr p r))))
    | multiplyOp => do
      .ok (.num ((← wantNumber (← evalExpr p l)) * (← wantNumber (← evalExpr p r))))
    | _ => .error (.msg "unexpected binary op")
  | .call fn args => do
    let vals ← evalArgs p args
    match fn vals with
    | .ok v => .ok v
    | .error e => .error (.msg e)

/-- Argument evaluation of `call.evaluate` (each argument is evaluated in
order; the called function inspects the values itself). -/
def evalArgs (p : Parser) : List Expr → Except PErr (List Value)
  | [] => .ok []
  | e :: rest => do
    let v ← evalExpr p e
    let vs ← evalArgs p rest
    .ok (v :: vs)

end

/-- `numAssignment`: apply an assignment operator to a numeric parameter
(`+=`-style operators read the current value first, which must exist). -/
def numAssignment (p : Parser) (num : ℤ) (op : AssignOp) (val : ℚ) : Except PErr Parser :=
  match op with
  | .assign => .ok (p.setNumParam num val)
  | .assignPlus | .plusPlus => do .ok (p.setNumParam num ((← p.getNumParam num) + val))
  | .assignMinus | .minusMinus => do .ok (p.setNumParam num ((← p.getNumParam num) - val))
  | .assignTimes => do .ok (p.setNumParam num ((← p.getNumParam num) * val))
  | .assignDivide => do .ok (p.setNumParam num ((← p.getNumParam num) / val))

/-- `nameAssignment`: plain `=` stores the value as is; the compound
operators force both sides to numbers. -/
def nameAssignment (p : Parser) (name : String) (op : AssignOp) (val : Value) :
    Except PErr Parser :=
  match op with
  | .assign => .ok (p.setNameParam name val)
  | .assignPlus | .plusPlus => do
    .ok (p.setNameParam name
      (.num ((← wantNumber (← p.getNameParam name)) + (← wantNumber val))))
  | .assignMinus | .minusMinus => do
    .ok (p.setNameParam name
      (.num ((← wantNumber (← p.getNameParam name)) - (← wantNumber val))))
  | .assignTimes => do
    .ok (p.setNameParam name
      (.num ((← wantNumber (← p.getNameParam name)) * (← wantNumber val))))
  | .assignDivide => do
    .ok (p.setNameParam name
      (.num ((← wantNumber (← p.getNameParam name)) / (← wantNumber val))))

/-- The data captured by one of the end-of-line closures (`endFunc`) that
`numAssignAction.evaluate` / `nameAssignAction.evaluate` append under the
LinuxCNC feature: the closure evaluates the stored expression at flush time
and applies `numAssignment` / `nameAssignment`. -/
inductive Deferred where
  | dnum : ℤ → AssignOp → Expr → Deferred
  | dname : String → AssignOp → Expr → Deferred

/-- Run one deferred closure (the body of the closure appended by
`numAssignAction.evaluate` resp. `nameAssignAction.evaluate`). -/
def applyDeferred (p : Parser) : Deferred → Except PErr Parser
  | .dnum num op e => do numAssignment p num op (← wantNumber (← evalExpr p e))
  | .dname name op e => do nameAssignment p name op (← evalExpr p e)

/-- The flush loop of `eolAction.evaluate`: run every queued closure in
list order. -/
def flushDeferred (p : Parser) : List Deferred → Except PErr Parser
  | [] => .ok p
  | d :: rest => do flushDeferred (← applyDeferred p d) rest

/-! ### Byte-level lexing helpers -/

/-- `upcaseByte`. -/
def upcaseByte (b : Char) : Char :=
  if 'a' ≤ b ∧ b ≤ 'z' then Char.ofNat (b.toNat - 32) else b

/-- Decimal digit test (`b >= '0' && b <= '9'`). -/
def isDigitB (b : Char) : Bool := '0' ≤ b ∧ b ≤ '9'

/-- Digit value. -/
def digitVal (b : Char) : ℕ := b.toNat - '0'.toNat

/-- `symbolByte`. -/
def symbolByte (b : Char) : Bool := 'A' ≤ b ∧ b ≤ 'Z'

/-- `nameByte`. -/
def nameByte (b : Char) : Bool :=
  ('A' ≤ b ∧ b ≤ 'Z') ∨ ('a' ≤ b ∧ b ≤ 'z') ∨ ('0' ≤ b ∧ b ≤ '9') ∨ b = '_'

/-- `skipWhitespace`: drop spaces and tabs; the terminating byte is pushed
back.  Running out of input inside the loop is the `io.EOF` panic of
`readByte`. -/
def skipWhitespace : List Char → Except PErr (List Char)
  | [] => .error .eof
  | b :: rest =>
    if b = ' ' ∨ b = '\t' then skipWhitespace rest else .ok (b :: rest)

/-- The digit loop of `wantInteger`, with the overflow check against
`math.MaxInt32` applied after each accumulation step. -/
def wantIntLoop (num : ℤ) (cnt : ℕ) : List Char → Except PErr (ℤ × ℕ × List Char)
  | [] => .error .eof
  | b :: rest =>
    if isDigitB b then
      let num := num * 10 + digitVal b
      if num > 2147483647 then .error (.msg "number too big")
      else wantIntLoop num (cnt + 1) rest
    else .ok (num, cnt, b :: rest)

/-- `wantInteger`. -/
def wantInteger (cs : List Char) : Except PErr (ℤ × List Char) := do
  let (num, cnt, rest) ← wantIntLoop 0 0 cs
  if cnt = 0 then .error (.msg "expected a number") else .ok (num, rest)

/-- Value of a digit string. -/
def digitsVal (cs : List Char) : ℚ :=
  cs.foldl (fun a c => a * 10 + (digitVal c : ℚ)) 0

/-- All characters are digits. -/
def allDigits (cs : List Char) : Bool := cs.all isDigitB

/-- `strconv.ParseFloat` restricted to the byte strings `parseNumber` can
accumulate: optional integer digits, optionally followed by `.` and
fractional digits, with at least one digit in total and no other bytes
(modelled exactly over `ℚ`). -/
def parseFloatQ (cs : List Char) : Option ℚ :=
  match cs.splitOn '.' with
  | [a] => if allDigits a ∧ a ≠ [] then some (digitsVal a) else none
  | [a, b] =>
    if allDigits a ∧ allDigits b ∧ (a ≠ [] ∨ b ≠ []) then
      some (digitsVal a + digitsVal b / 10 ^ b.length)
    else none
  | _ => none

/-- The fractional-digit loop of `parseNumber` (after the `.`). -/
def parseFracLoop (acc : List Char) : List Char → Except PErr (List Char × List Char)
  | [] => .error .eof
  | b :: rest =>
    if isDigitB b then parseFracLoop (acc ++ [b]) rest
    else .ok (acc, b :: rest)

/-- The main digit loop of `parseNumber`. -/
def parseNumLoop (acc : List Char) : List Char → Except PErr (List Char × List Char)
  | [] => .error .eof
  | b :: rest =>
    if isDigitB b then parseNumLoop (acc ++ [b]) rest
    else if b = '.' then parseFracLoop (acc ++ [b]) rest
    else .ok (acc, b :: rest)

/-- `parseNumber`: an optional sign byte (`-` negates, `+` is dropped, any
other first byte is kept), the digit/dot loop, then `ParseFloat`; a byte
string `ParseFloat` rejects is the "not a number" error. -/
def parseNumber : List Char → Except PErr (ℚ × List Char)
  | [] => .error .eof
  | b :: rest => do
    let neg := b = '-'
    let start := if b = '-' ∨ b = '+' then [] else [b]
    let (bytes, rest') ← parseNumLoop start rest
    match parseFloatQ bytes with
    | some n => .ok (if neg then -n else n, rest')
    | none => .error (.msg "not a number")

/-- `parseSymbol`: the first byte is supplied by the caller; a symbol needs
at least a second `A`-`Z` byte (after upcasing), otherwise the byte is
pushed back and the empty string returned; further symbol bytes are
accumulated and the terminator is pushed back. -/
def parseSymbol (b : Char) : List Char → Except PErr (String × List Char)
  | [] => .error .eof
  | c :: rest =>
    if symbolByte (upcaseByte c) then
      parseSymLoop [b, upcaseByte c] rest
    else .ok ("", c :: rest)
where
  parseSymLoop (acc : List Char) : List Char → Except PErr (String × List Char)
  | [] => .error .eof
  | c :: rest =>
    if symbolByte (upcaseByte c) then parseSymLoop (acc ++ [upcaseByte c]) rest
    else .ok (String.mk acc, c :: rest)

/-- The digit loop of the numeric branch of `parseParameter`, with the
`math.MaxInt16` bound; end of input returns the number read so far. -/
def paramNumLoop (num : ℤ) : List Char → Except PErr (ℤ × List Char)
  | [] => .ok (num, [])
  | b :: rest =>
    if isDigitB b then
      let num := num * 10 + digitVal b
      if num > 32767 then .error (.msg "number parameter too big")
      else paramNumLoop num rest
    else .ok (num, b :: rest)

/-- The name-byte loop of the name branch of `parseParameter`; at end of
input an undelimited name is returned, a delimited one is the `io.EOF`
error. -/
def paramNameLoop (delim : Bool) (acc : List Char) :
    List Char → Except PErr (List Char × List Char)
  | [] => if delim then .error (.msg "EOF") else .ok (acc, [])
  | b :: rest =>
    if nameByte b then paramNameLoop delim (acc ++ [b]) rest
    else .ok (acc, b :: rest)

/-- `parseParameter` (reading from an arbitrary byte scanner): a digit run
is a numeric parameter; a `<`-delimited name, or in BeagleG any name byte,
starts a name (the first byte after `<` is taken unchecked, as in the
source); anything else is an error.  Read failures here (including end of
input) go through `p.error`, so they are ordinary errors, not the
distinguished EOF result. -/
def parseParamDelim : List Char → Except PErr (Value × List Char)
  | [] => .error (.msg "EOF")
  | c :: rest' => do
    let (name, rest'') ← paramNameLoop true [c] rest'
    match rest'' with
    | '>' :: rest3 => .ok (.name (String.mk name), rest3)
    | _ => .error (.msg "missing > at end of parameter")

/-- `parseParameter` continued: dispatch on the first byte. -/
def parseParameter (feat : Features) : List Char → Except PErr (Value × List Char)
  | [] => .error (.msg "EOF")
  | b :: rest =>
    if isDigitB b then do
      let (num, rest') ← paramNumLoop (digitVal b) rest
      .ok (.num num, rest')
    else if (feat.hasBeagleG ∧ nameByte b) ∨ b = '<' then
      if b = '<' then parseParamDelim rest
      else do
        let (name, rest') ← paramNameLoop false [b] rest
        .ok (.name (String.mk name), rest')
    else .error (.msg "expected parameter name or number")

/-- `parseString` (the opening quote has been consumed): bytes up to an
unescaped `"`, with `\` escaping the next byte; newlines are an error. -/
def parseString : List Char → Except PErr (String × List Char) :=
  go []
where
  go (acc : List Char) : List Char → Except PErr (String × List Char)
  | [] => .error .eof
  | b :: rest =>
    if b = '\n' ∨ b = '\r' then .error (.msg "strings may not contain newlines")
    else if b = '\x22' then .ok (String.mk acc, rest)
    else if b = '\\' then
      match rest with
      | [] => .error .eof
      | c :: rest' => go (acc ++ [c]) rest'
    else go (acc ++ [b]) rest

/-- `parseName` (the opening `<` has been consumed): name bytes up to `>`,
which must be present, and the name must be non-empty. -/
def parseName : List Char → Except PErr (String × List Char) :=
  go []
where
  go (acc : List Char) : List Char → Except PErr (String × List Char)
  | [] => .error .eof
  | b :: rest =>
    if nameByte b then go (acc ++ [b]) rest
    else if b ≠ '>' then .error (.msg "missing > at end of parameter")
    else if acc = [] then .error (.msg "empty names not allowed")
    else .ok (String.mk acc, rest)

/-- `parseAssignOp`: `=`, or a two-byte operator built from `-`, `+`, `*`,
`/`. -/
def parseAssignOp (cs : List Char) : Except PErr (AssignOp × List Char) := do
  match ← skipWhitespace cs with
  | [] => .error .eof
  | b :: rest =>
    if b = '=' then .ok (.assign, rest)
    else if b = '-' ∨ b = '+' ∨ b = '*' ∨ b = '/' then
      match rest with
      | [] => .error .eof
      | n :: rest' =>
        if b = '-' ∧ n = '-' then .ok (.minusMinus, rest')
        else if b = '-' ∧ n = '=' then .ok (.assignMinus, rest')
        else if b = '+' ∧ n = '+' then .ok (.plusPlus, rest')
        else if b = '+' ∧ n = '=' then .ok (.assignPlus, rest')
        else if b = '*' ∧ n = '=' then .ok (.assignTimes, rest')
        else if b = '/' ∧ n = '=' then .ok (.assignDivide, rest')
        else .error (.msg "expected an assignment operator")
    else .error (.msg "expected an assignment operator")

/-! ### Comment side effects -/

/-- `Number.String()`: `strconv.FormatFloat(f, 'f', 4, 64)`, a fixed-point
rendering with four decimals. -/
def numberToString (q : ℚ) : String :=
  let scaled : ℤ := round (|q| * 10000)
  let fs := toString (scaled % 10000).toNat
  (if q < 0 then "-" else "") ++ toString (scaled / 10000) ++ "." ++
    String.mk (List.replicate (4 - fs.length) '0') ++ fs

/-- The `String()` methods of the three value variants: numbers as
fixed-point with four decimals, names as `<id>`, strings bare. -/
def valueToString : Value → String
  | .num n => numberToString n
  | .name n => "<" ++ n ++ ">"
  | .str s => s

/-- Append to the OUT resp. ERR text sink. -/
def writeOut (p : Parser) (toErr : Bool) (s : String) : Parser :=
  if toErr then { p with errW := p.errW ++ s } else { p with outW := p.outW ++ s }

/-- `Parser.parseComment`: a comment body of the shape `cmd,rest` with
`cmd` case-insensitively one of `msg`, `debug`, `print` (and the matching
writer present) becomes a `commentAction`; `debug` and `print` record
whether the body mentions `#`.  Anything else is inert (`nil`). -/
def parseComment (hasOutW hasErrW : Bool) (comment : String)
    (_inline : Bool) : Option Action :=
  match comment.splitOn "," with
  | [] => none
  | [_] => none
  | sub0 :: subrest =>
    let cmd := sub0.toLower
    let body := String.intercalate "," subrest
    if cmd = "msg" then
      if hasOutW then some (.commentAct cmd body false) else none
    else if cmd = "debug" then
      if hasOutW then some (.commentAct cmd body (body.contains '#')) else none
    else if cmd = "print" then
      if hasErrW then some (.commentAct cmd body (body.contains '#')) else none
    else none

theorem paramNumLoop_length : ∀ (cs : List Char) (num n : ℤ) (rest : List Char),
    paramNumLoop num cs = .ok (n, rest) → rest.length ≤ cs.length := by
  intro cs
  induction cs with
  | nil =>
    intro num n rest h
    simp only [paramNumLoop, Except.ok.injEq, Prod.mk.injEq] at h
    simp [← h.2]
  | cons b bs ih =>
    intro num n rest h
    simp only [paramNumLoop] at h
    split at h
    · split at h
      · exact absurd h (by simp)
      · have := ih _ _ _ h
        simp only [List.length_cons]
        omega
    · simp only [Except.ok.injEq, Prod.mk.injEq] at h
      simp [← h.2]

theorem paramNameLoop_length : ∀ (cs : List Char) (delim : Bool) (acc name rest : List Char),
    paramNameLoop delim acc cs = .ok (name, rest) → rest.length ≤ cs.length := by
  intro cs
  induction cs with
  | nil =>
    intro delim acc name rest h
    simp only [paramNameLoop] at h
    split at h
    · exact absurd h (by simp)
    · simp only [Except.ok.injEq, Prod.mk.injEq] at h
      simp [← h.2]
  | cons b bs ih =>
    intro delim acc name rest h
    simp only [paramNameLoop] at h
    split at h
    · have := ih _ _ _ _ h
      simp only [List.length_cons]
      omega
    · simp only [Except.ok.injEq, Prod.mk.injEq] at h
      simp [← h.2]

theorem parseParamDelim_length :
    ∀ (cs : List Char) (v : Value) (rest : List Char),
    parseParamDelim cs = .ok (v, rest) → rest.length ≤ cs.length := by
  intro cs v rest h
  match cs with
  | [] => simp [parseParamDelim] at h
  | c :: bs2 =>
    rw [parseParamDelim] at h
    match h2 : paramNameLoop true [c] bs2 with
    | .error e => rw [h2] at h; simp [Bind.bind, Except.bind] at h
    | .ok (name, rest2) =>
      rw [h2] at h
      simp only [Bind.bind, Except.bind] at h
      split at h
      next X =>
        simp only [Except.ok.injEq, Prod.mk.injEq] at h
        have h3 := paramNameLoop_length bs2 _ _ _ _ h2
        rw [← h.2]
        simp only [List.length_cons] at h3 ⊢
        omega
      next => simp at h

theorem parseParameter_length (feat : Features) :
    ∀ (cs : List Char) (v : Value) (rest : List Char),
    parseParameter feat cs = .ok (v, rest) → rest.length ≤ cs.length := by
  intro cs v rest h
  match cs with
  | [] => simp [parseParameter] at h
  | b :: bs =>
    rw [parseParameter.eq_def] at h
    simp only [] at h
    by_cases hd : isDigitB b
    · rw [if_pos hd] at h
      match h2 : paramNumLoop (digitVal b : ℤ) bs with
      | .error e => rw [h2] at h; simp [Bind.bind, Except.bind] at h
      | .ok (num, rest') =>
        rw [h2] at h
        simp only [Bind.bind, Except.bind, Except.ok.injEq, Prod.mk.injEq] at h
        have := paramNumLoop_length bs _ _ _ h2
        simp only [List.length_cons, ← h.2]
        omega
    · rw [if_neg hd] at h
      by_cases hn : (feat.hasBeagleG = true ∧ nameByte b = true ∨ b = '<')
      · rw [if_pos hn] at h
        by_cases hlt : b = '<'
        · rw [if_pos hlt] at h
          have := parseParamDelim_length bs _ _ h
          simp only [List.length_cons]
          omega
        · rw [if_neg hlt] at h
          match h2 : paramNameLoop false [b] bs with
          | .error e => rw [h2] at h; simp [Bind.bind, Except.bind] at h
          | .ok (name, rest') =>
            rw [h2] at h
            simp only [Bind.bind, Except.bind, Except.ok.injEq, Prod.mk.injEq] at h
            have := paramNameLoop_length bs _ _ _ _ h2
            simp only [List.length_cons, ← h.2]
            omega
      · rw [if_neg hn] at h
        simp at h

/-- The byte loop of `Parser.evaluateComment`: plain bytes are copied to
the sink, `#` starts a parameter reference (re-lexed with `parseParameter`)
whose stringified value is printed; a numeric reference must be a positive
integer. -/
def evalCommentLoop (p : Parser) (acc : String) :
    List Char → Except PErr String
  | [] => .ok acc
  | b :: rest =>
    if b ≠ '#' then evalCommentLoop p (acc.push b) rest
    else
      match h : parseParameter p.features rest with
      | .error e => .error e
      | .ok (prm, rest') =>
        match prm.asNumber with
        | some num =>
          let (n, ok) := Number.AsInteger num
          if !ok || n < 1 then
            .error (.msg "number parameter must be a positive integer")
          else do
            evalCommentLoop p (acc ++ numberToString (← p.getNumParam n)) rest'
        | none =>
          match prm.asName with
          | some name => do
            evalCommentLoop p (acc ++ valueToString (← p.getNameParam name)) rest'
          | none => .error (.msg "expected parameter name or number")
termination_by cs => cs.length
decreasing_by
· simp
· have := parseParameter_length p.features rest _ _ h
  simp only [List.length_cons]
  omega
· have := parseParameter_length p.features rest _ _ h
  simp only [List.length_cons]
  omega

/-- `Parser.evaluateComment`: expand the body into the chosen sink and
finish with a newline. -/
def evaluateComment (p : Parser) (toErr : Bool) (body : String) : Except PErr Parser := do
  let out ← evalCommentLoop p "" body.data
  .ok (writeOut p toErr (out ++ "\n"))

/-! ### Action evaluation -/

/-- `numAssignAction.evaluate` / `nameAssignAction.evaluate`: under the
LinuxCNC feature the assignment is queued as a closure at the end of the
deferred list; otherwise it is evaluated and applied immediately. -/
def evalAssign (p : Parser) (codes : List Code) (efs : List Deferred) :
    AssignAct → Except PErr (Parser × List Code × List Deferred × Bool)
  | .anum num op e =>
    if p.features.hasLinuxCNC then
      .ok (p, codes, efs ++ [.dnum num op e], false)
    else do
      let q ← wantNumber (← evalExpr p e)
      let p' ← numAssignment p num op q
      .ok (p', codes, efs, false)
  | .aname name op e =>
    if p.features.hasLinuxCNC then
      .ok (p, codes, efs ++ [.dname name op e], false)
    else do
      let v ← evalExpr p e
      let p' ← nameAssignment p name op v
      .ok (p', codes, efs, false)

/-- The `elseif` scan of `ifActionBeagleG.evaluate`: the first test whose
absolute value reaches `minimumDelta` selects its assignment; otherwise the
`else` assignment, if any, runs. -/
def evalElseifs (p : Parser) (codes : List Code) (efs : List Deferred)
    (elseA : Option AssignAct) :
    List (Expr × AssignAct) → Except PErr (Parser × List Code × List Deferred × Bool)
  | [] =>
    match elseA with
    | some a => evalAssign p codes efs a
    | none => .ok (p, codes, efs, false)
  | (t, a) :: rest => do
    let q ← wantNumber (← evalExpr p t)
    if absQ q ≥ minimumDelta then evalAssign p codes efs a
    else evalElseifs p codes efs elseA rest

/-- `action.evaluate` for each action kind, following the source's
`evaluate` methods: code actions append the evaluated code; assignments
are queued under LinuxCNC and applied immediately otherwise; comment
actions print; a while action re-pushes its body (with itself re-appended)
onto the execution stack when the test is not `Number.Equal` to zero; a
stray `END` is an error; `eol` flushes the deferred queue, clears it and
reports the line done. -/
def evalAction (p : Parser) (codes : List Code) (efs : List Deferred) :
    Action → Except PErr (Parser × List Code × List Deferred × Bool)
  | .codeAct letter e => do
    let v ← evalExpr p e
    .ok (p, codes ++ [⟨letter, v⟩], efs, false)
  | .assignAct a => evalAssign p codes efs a
  | .commentAct cmd body hasParams =>
    if cmd = "msg" then .ok (writeOut p false (body ++ "\n"), codes, efs, false)
    else if cmd = "debug" then
      if hasParams then do .ok (← evaluateComment p false body, codes, efs, false)
      else .ok (writeOut p false (body ++ "\n"), codes, efs, false)
    else if cmd = "print" then
      if hasParams then do .ok (← evaluateComment p true body, codes, efs, false)
      else .ok (writeOut p true (body ++ "\n"), codes, efs, false)
    else .error (.msg "unexpected comment cmd")
  | .whileAct test body => do
    let q ← wantNumber (← evalExpr p test)
    if ¬ Number.Equal 0 q then
      .ok ({ p with stack := (body ++ [.whileAct test body]) :: p.stack },
        codes, efs, false)
    else .ok (p, codes, efs, false)
  | .endAct => .error (.msg "unexpected END, no matching WHILE")
  | .ifAct test thenA elseifs elseA => do
    let q ← wantNumber (← evalExpr p test)
    if ¬ Number.Equal 0 q then evalAssign p codes efs thenA
    else evalElseifs p codes efs elseA elseifs
  | .eol => do
    let p' ← flushDeferred p efs
    .ok (p', codes, [], true)

/-! ### The recursive-descent parser

The recursive-descent routines are mutually recursive through the byte
stream rather than through their argument structure, so they take an
explicit fuel parameter, decremented at each mutual call; every theorem
below that runs them supplies enough fuel for the input at hand. -/

/-- Convert the `Value` returned by `parseParameter` into the expression
node the source uses it as (`p.parseParameter(p.Scanner).(expression)`). -/
def valueToExpr : Value → Expr
  | .num n => .num n
  | .name n => .name n
  | .str s => .str s

/-- The leading `#` loop of `parseReference`. -/
def countRefs (refs : ℕ) : List Char → Except PErr (ℕ × List Char)
  | [] => .error .eof
  | b :: rest =>
    if b = '#' then countRefs (refs + 1) rest else .ok (refs, b :: rest)

/-- Go `math.Round` (round half away from zero). -/
def roundGo (q : ℚ) : ℤ :=
  if q < 0 then -⌊-q + 1/2⌋ else ⌊q + 1/2⌋

/-- `abs` of the `calls` table. -/
def absF : List Value → Except String Value
  | v :: _ =>
    match v.asNumber with
    | some n => .ok (.num (absQ n))
    | none => .error "expected a number"
  | [] => .error "expected a number"

/-- `ceil` of the `calls` table. -/
def ceilF : List Value → Except String Value
  | v :: _ =>
    match v.asNumber with
    | some n => .ok (.num ⌈n⌉)
    | none => .error "expected a number"
  | [] => .error "expected a number"

/-- `floor` of the `calls` table. -/
def floorF : List Value → Except String Value
  | v :: _ =>
    match v.asNumber with
    | some n => .ok (.num ⌊n⌋)
    | none => .error "expected a number"
  | [] => .error "expected a number"

/-- `round` of the `calls` table. -/
def roundF : List Value → Except String Value
  | v :: _ =>
    match v.asNumber with
    | some n => .ok (.num (roundGo n))
    | none => .error "expected a number"
  | [] => .error "expected a number"

/-- The `calls` table restricted to its algebraic entries (each of arity
one).  The seven remaining entries of the source table (`ACOS`, `ASIN`,
`ATAN`, `COS`, `SIN`, `SQRT`, `TAN`) compute irrational values and are
outside the exact fragment modelled here; no theorem below concerns them. -/
def calls (sym : String) : Option ((List Value → Except String Value) × ℕ) :=
  if sym = "ABS" then some (absF, 1)
  else if sym = "CEIL" then some (ceilF, 1)
  else if sym = "FLOOR" then some (floorF, 1)
  else if sym = "ROUND" then some (roundF, 1)
  else none

mutual

/-- `Parser.parseExpr`: a reference, a bracketed sub-expression run through
`adjustPrecedence`, a name, a string, or a number. -/
def parseExpr : ℕ → Features → List Char → Except PErr (Expr × List Char)
  | 0, _, _ => .error (.msg "out of fuel")
  | fuel + 1, feat, cs => do
    match ← skipWhitespace cs with
    | [] => .error .eof
    | b :: rest =>
      if b = '#' then parseReference fuel feat rest
      else if b = '[' then do
        let (e0, cs1) ← parseSubExpr fuel feat rest
        let e := adjustPrecedence e0
        match ← skipWhitespace cs1 with
        | ']' :: cs3 => .ok (e, cs3)
        | _ => .error (.msg "expected closing brace")
      else if b = '<' then do
        let (n, cs1) ← parseName rest
        .ok (.name n, cs1)
      else if b = '\x22' then do
        let (s, cs1) ← parseString rest
        .ok (.str s, cs1)
      else do
        let (n, cs1) ← parseNumber (b :: rest)
        .ok (.num n, cs1)
termination_by f _ _ => (f, 0)

/-- `Parser.parseSubExpr`: one operand — a negation, a logical not, a
bracketed grouping, a reference, a name, a string, a function call or a
number — followed by an optional binary-operator suffix. -/
def parseSubExpr : ℕ → Features → List Char → Except PErr (Expr × List Char)
  | 0, _, _ => .error (.msg "out of fuel")
  | fuel + 1, feat, cs => do
    match ← skipWhitespace cs with
    | [] => .error .eof
    | b :: rest => do
      let (e, cs1) ←
        if b = '-' then do
          let (e, cs1) ← parseSubExpr fuel feat rest
          pure (Expr.unary negateOp e, cs1)
        else if b = '!' then do
          let (e, cs1) ← parseSubExpr fuel feat rest
          pure (Expr.unary notOp e, cs1)
        else if b = '[' then do
          let (e, cs1) ← parseSubExpr fuel feat rest
          match ← skipWhitespace cs1 with
          | ']' :: cs3 => pure (Expr.unary noOp e, cs3)
          | _ => .error (.msg "expected closing brace")
        else if b = '#' then parseReference fuel feat rest
        else if b = '<' then do
          let (n, cs1) ← parseName rest
          pure (Expr.name n, cs1)
        else if b = '\x22' then do
          let (s, cs1) ← parseString rest
          pure (Expr.str s, cs1)
        else
          let bu := upcaseByte b
          if symbolByte bu then do
            let (sym, cs1) ← parseSymbol bu rest
            if sym = "" then .error (.msg "expected a function name")
            else
              match calls sym with
              | none => .error (.msg "function not found")
              | some (fn, numArgs) => do
                match ← skipWhitespace cs1 with
                | '[' :: cs3 => do
                  match ← skipWhitespace cs3 with
                  | ']' :: cs5 =>
                    if numArgs ≠ 0 then
                      .error (.msg "wrong number of arguments to function")
                    else pure (Expr.call fn [], cs5)
                  | cs4 => do
                    let (args, cs5) ← parseCallArgs fuel feat [] cs4
                    if args.length ≠ numArgs then
                      .error (.msg "wrong number of arguments to function")
                    else pure (Expr.call fn args, cs5)
                | _ => .error (.msg "expected [ following function name")
          else do
            let (n, cs1) ← parseNumber (b :: rest)
            pure (Expr.num n, cs1)
      let cs2 ← skipWhitespace cs1
      parseOpSuffix fuel feat e cs2
termination_by f _ _ => (f, 0)

/-- The binary-operator tail of `parseSubExpr`: a one- or two-byte operator
continues with the right operand, anything else is pushed back and the
operand returned alone; a lone `=`, `!`, `&` or `|` is an error. -/
def parseOpSuffix (fuel : ℕ) (feat : Features) (e : Expr) :
    List Char → Except PErr (Expr × List Char)
  | [] => .error .eof
  | b :: rest =>
    if b = '+' then parseOpRight fuel feat e addOp rest
    else if b = '-' then parseOpRight fuel feat e subtractOp rest
    else if b = '*' then parseOpRight fuel feat e multiplyOp rest
    else if b = '/' then parseOpRight fuel feat e divideOp rest
    else if b = '=' then
      match rest with
      | [] => .error .eof
      | '=' :: r2 => parseOpRight fuel feat e equalOp r2
      | _ => .error (.msg "expected ==")
    else if b = '!' then
      match rest with
      | [] => .error .eof
      | '=' :: r2 => parseOpRight fuel feat e notEqualOp r2
      | _ => .error (.msg "expected !=")
    else if b = '<' then
      match rest with
      | [] => .error .eof
      | '=' :: r2 => parseOpRight fuel feat e lessEqualOp r2
      | r2 => parseOpRight fuel feat e lessThanOp r2
    else if b = '>' then
      match rest with
      | [] => .error .eof
      | '=' :: r2 => parseOpRight fuel feat e greaterEqualOp r2
      | r2 => parseOpRight fuel feat e greaterThanOp r2
    else if b = '&' then
      match rest with
      | [] => .error .eof
      | '&' :: r2 => parseOpRight fuel feat e andOp r2
      | _ => .error (.msg "expected &&")
    else if b = '|' then
      match rest with
      | [] => .error .eof
      | '|' :: r2 => parseOpRight fuel feat e orOp r2
      | _ => .error (.msg "expected ||")
    else .ok (e, b :: rest)
termination_by _ => (fuel, 2)

/-- `return &binary{op: op, left: e, right: p.parseSubExpr()}`. -/
def parseOpRight (fuel : ℕ) (feat : Features) (e : Expr) (op : Op)
    (cs : List Char) : Except PErr (Expr × List Char) := do
  let (r, cs') ← parseSubExpr fuel feat cs
  .ok (.binary op e r, cs')
termination_by (fuel, 1)

/-- The argument loop of the function-call branch of `parseSubExpr`. -/
def parseCallArgs : ℕ → Features → List Expr → List Char →
    Except PErr (List Expr × List Char)
  | 0, _, _, _ => .error (.msg "out of fuel")
  | fuel + 1, feat, acc, cs => do
    let (a, cs1) ← parseSubExpr fuel feat cs
    match ← skipWhitespace cs1 with
    | [] => .error .eof
    | ']' :: cs3 => .ok (acc ++ [a], cs3)
    | ',' :: cs3 => parseCallArgs fuel feat (acc ++ [a]) cs3
    | _ => .error (.msg "expected a comma between arguments")
termination_by f _ _ _ => (f, 0)

/-- `Parser.parseReference`: count the leading `#`s, then either a bracketed
expression or a parameter name/number. -/
def parseReference : ℕ → Features → List Char → Except PErr (Expr × List Char)
  | 0, _, _ => .error (.msg "out of fuel")
  | fuel + 1, feat, cs => do
    let (refs, cs1) ← countRefs 1 cs
    match cs1 with
    | '[' :: _ => do
      let (e, cs2) ← parseExpr fuel feat cs1
      .ok (.param refs e, cs2)
    | _ => do
      let (v, cs2) ← parseParameter feat cs1
      .ok (.param refs (valueToExpr v), cs2)
termination_by f _ _ => (f, 0)

end

/-- `Parser.parseAssignment`: a parameter, an assignment operator, and the
right-hand expression (a literal `1` for `++`/`--`); a numeric parameter
yields a `numAssignAction`, a name a `nameAssignAction`. -/
def parseAssignment (fuel : ℕ) (feat : Features) (cs : List Char) :
    Except PErr (AssignAct × List Char) := do
  let (prm, cs1) ← parseParameter feat cs
  let (op, cs2) ← parseAssignOp cs1
  let (e, cs3) ←
    if op = .plusPlus ∨ op = .minusMinus then pure (Expr.num 1, cs2)
    else parseExpr fuel feat cs2
  match prm with
  | .num q => .ok (.anum (truncQ q) op e, cs3)
  | .name n => .ok (.aname n op e, cs3)
  | .str _ => .error (.msg "expected parameter name or number")

/-- `Parser.wantEndOfLine` at the byte level: optional whitespace then a
newline, which is consumed (without touching the line counters, as in the
source). -/
def wantEndOfLineCs (cs : List Char) : Except PErr (List Char) := do
  match ← skipWhitespace cs with
  | [] => .error .eof
  | b :: rest =>
    if b = '\n' ∨ b = '\r' then .ok rest
    else .error (.msg "expected end of line")

/-- `... <expr> THEN <assignment>` (`parseExprThenAssignBeagleG`). -/
def parseExprThenAssignBG (fuel : ℕ) (feat : Features) (cs : List Char) :
    Except PErr (Expr × AssignAct × List Char) := do
  let (test, cs1) ← parseExpr fuel feat cs
  match ← skipWhitespace cs1 with
  | [] => .error .eof
  | c :: rest =>
    if upcaseByte c ≠ 'T' then .error (.msg "expected keyword THEN")
    else do
      let (sym, cs2) ← parseSymbol 'T' rest
      if sym ≠ "THEN" then .error (.msg "expected keyword THEN")
      else do
        match ← skipWhitespace cs2 with
        | '#' :: cs3 => do
          let (act, cs4) ← parseAssignment fuel feat cs3
          .ok (test, act, cs4)
        | _ => .error (.msg "expected an assignment")

/-- The `ELSEIF`/`ELSE` loop of `parseIfBeagleG`; the terminating newline is
consumed without updating the line counters, as in the source. -/
def parseIfLoop : ℕ → Features → List (Expr × AssignAct) → List Char →
    Except PErr (List (Expr × AssignAct) × Option AssignAct × List Char)
  | 0, _, _, _ => .error (.msg "out of fuel")
  | fuel + 1, feat, acc, cs => do
    match ← skipWhitespace cs with
    | [] => .error .eof
    | c :: rest =>
      if c = '\n' ∨ c = '\r' then .ok (acc, none, rest)
      else if upcaseByte c ≠ 'E' then .error (.msg "expected keyword ELSEIF or ELSE")
      else do
        let (kw, cs1) ← parseSymbol (upcaseByte c) rest
        if kw = "ELSEIF" then do
          let (t, a, cs2) ← parseExprThenAssignBG fuel feat cs1
          parseIfLoop fuel feat (acc ++ [(t, a)]) cs2
        else if kw = "ELSE" then do
          match ← skipWhitespace cs1 with
          | '#' :: cs2 => do
            let (act, cs3) ← parseAssignment fuel feat cs2
            let cs4 ← wantEndOfLineCs cs3
            .ok (acc, some act, cs4)
          | _ => .error (.msg "expected an assignment")
        else .error (.msg "expected keyword ELSEIF or ELSE")

/-- `Parser.parseIfBeagleG`. -/
def parseIfBG (fuel : ℕ) (feat : Features) (cs : List Char) :
    Except PErr (Action × List Char) := do
  let (t, a, cs1) ← parseExprThenAssignBG fuel feat cs
  let (elseifs, elseA, cs2) ← parseIfLoop fuel feat [] cs1
  .ok (.ifAct t a elseifs elseA, cs2)

/-- The byte loop of the `;`/`%` trailing-comment branch: everything up to
and including the next newline. -/
def consumeToNewline (acc : List Char) : List Char →
    Except PErr (String × Char × List Char)
  | [] => .error .eof
  | b :: rest =>
    if b = '\n' ∨ b = '\r' then .ok (String.mk acc, b, rest)
    else consumeToNewline (acc ++ [b]) rest

/-- The byte loop of the `(`-comment branch: everything up to `)`, with
newlines forbidden. -/
def consumeToParen (acc : List Char) : List Char → Except PErr (String × List Char)
  | [] => .error .eof
  | b :: rest =>
    if b = '\n' ∨ b = '\r' then .error (.msg "inline comments must be on one line")
    else if b = ')' then .ok (String.mk acc, rest)
    else consumeToParen (acc ++ [b]) rest

mutual

/-- `Parser.parse`, the per-action entry of the parser: skip whitespace,
dispatch on the next byte (upcased).  A newline yields the `eol` action;
`;`/`%` consume a trailing comment (actionable under LinuxCNC, in which
case the newline is pushed back); `(` consumes an inline comment and
continues; `*nnn` is parsed, discarded and flags the after-checksum state —
with no check against an earlier checksum; `#` (not after a checksum)
parses an assignment; a multi-letter symbol is a keyword (BeagleG block
constructs); `N` must be first on the line and strictly increase the
virtual line; any other letter is a code. -/
def parse : ℕ → Parser → Except PErr (Action × Parser)
  | 0, _ => .error (.msg "out of fuel")
  | fuel + 1, p => do
    match ← skipWhitespace p.input with
    | [] => .error .eof
    | c :: rest =>
      let b := upcaseByte c
      if b = '\n' ∨ b = '\r' then
        .ok (.eol, { p with
          input := rest
          lineState := .beforeLineNum
          physicalLine := p.physicalLine + 1
          virtualLine := p.virtualLine + 1 })
      else if b = ';' ∨ b = '%' then do
        let (bytes, nl, rest') ← consumeToNewline [] rest
        let p := { p with
          input := rest'
          lineState := .beforeLineNum
          physicalLine := p.physicalLine + 1
          virtualLine := p.virtualLine + 1 }
        if p.features.hasLinuxCNC then
          match parseComment p.hasOutW p.hasErrW bytes false with
          | some act => .ok (act, { p with input := nl :: rest' })
          | none => .ok (.eol, p)
        else .ok (.eol, p)
      else if b = '(' then do
        let (bytes, rest') ← consumeToParen [] rest
        if p.features.hasLinuxCNC then
          match parseComment p.hasOutW p.hasErrW bytes true with
          | some act => .ok (act, { p with input := rest' })
          | none => parse fuel { p with input := rest' }
        else parse fuel { p with input := rest' }
      else if b = '*' then do
        let (_, rest') ← wantInteger rest
        parse fuel { p with input := rest', lineState := .afterChecksum }
      else if b = '#' then
        if p.lineState = .afterChecksum then
          .error (.msg "checksum (*nnn) must be at end of line")
        else do
          let (act, cs') ← parseAssignment fuel p.features rest
          .ok (.assignAct act, { p with input := cs', lineState := .inBody })
      else if b < 'A' ∨ b > 'Z' then .error (.msg "unexpected command")
      else do
        let (sym, rest') ← parseSymbol b rest
        if sym ≠ "" then
          if p.lineState = .afterChecksum then
            .error (.msg "checksum (*nnn) must be at end of line")
          else if p.lineState = .inBody then
            .error (.msg "keyword must come first on line")
          else
            let p := { p with input := rest', lineState := .inBody }
            if p.features.hasBeagleG then
              if sym = "WHILE" then parseWhileBG fuel p
              else if sym = "END" then do
                let cs' ← wantEndOfLineCs p.input
                .ok (.endAct, { p with input := cs' })
              else if sym = "IF" then do
                let (act, cs') ← parseIfBG fuel p.features p.input
                .ok (act, { p with input := cs' })
              else .error (.msg "unexpected keyword")
            else .error (.msg "unexpected keyword")
        else if b = 'N' then
          if p.lineState ≠ .beforeLineNum then .error (.msg "N must be first on line")
          else do
            let (num, rest'') ← wantInteger rest'
            if num ≤ p.virtualLine then .error (.msg "N invalid")
            else parse fuel { p with
              input := rest''
              virtualLine := num - 1
              lineState := .afterLineNum }
        else
          if p.lineState = .afterChecksum then
            .error (.msg "checksum (*nnn) must be at end of line")
          else do
            let (e, cs') ← parseExpr fuel p.features rest'
            .ok (.codeAct b e, { p with input := cs', lineState := .inBody })

/-- `Parser.parseWhileBeagleG`: the test expression, `DO`, end of line,
then the body lines up to the matching `END`; the loop action is returned
(its evaluation re-appends the action itself at the end of the pushed
body). -/
def parseWhileBG : ℕ → Parser → Except PErr (Action × Parser)
  | 0, _ => .error (.msg "out of fuel")
  | fuel + 1, p => do
    let (test, cs1) ← parseExpr fuel p.features p.input
    match ← skipWhitespace cs1 with
    | [] => .error .eof
    | c :: rest =>
      if upcaseByte c ≠ 'D' then .error (.msg "expected keyword DO")
      else do
        let (sym, cs2) ← parseSymbol 'D' rest
        if sym ≠ "DO" then .error (.msg "expected keyword DO")
        else do
          let cs3 ← wantEndOfLineCs cs2
          let (actions, p') ← whileBody fuel { p with input := cs3 }
          .ok (.whileAct test actions, p')

/-- The body-collection loop of `parseWhileBeagleG`: parse actions until an
`END` action appears. -/
def whileBody : ℕ → Parser → Except PErr (List Action × Parser)
  | 0, _ => .error (.msg "out of fuel")
  | fuel + 1, p => do
    let (act, p') ← parse fuel p
    match act with
    | .endAct => .ok ([], p')
    | _ => do
      let (acts, p'') ← whileBody fuel p'
      .ok (act :: acts, p'')

end

/-- `Parser.Parse`: the fetch–evaluate loop.  When the execution stack is
non-empty the next action comes from the top frame (the frame is dropped
once emptied), otherwise from the input; the loop returns as soon as an
action reports the line done with a non-empty code list. -/
def runParse : ℕ → Parser → List Code → List Deferred →
    Except PErr (List Code × Parser)
  | 0, _, _, _ => .error (.msg "out of fuel")
  | fuel + 1, p, codes, efs => do
    let (act, p) ←
      match p.stack with
      | [] => parse fuel p
      | frame :: frames =>
        match frame with
        | [] => .error (.msg "empty stack frame")
        | a :: restf =>
          .ok (a, { p with stack := match restf with
            | [] => frames
            | _ => restf :: frames })
    let (p', codes', efs', done) ← evalAction p codes efs act
    if done ∧ codes'.length > 0 then .ok (codes', p')
    else runParse fuel p' codes' efs'

/-! ### The engine (`engine.go`, `parameters.go`)

The engine state and its frame arithmetic use only field operations, so they
stay over `ℚ`.  The `Machine` collaborator is modelled by response functions
(the error, if any, each method would return), and the engine operations
additionally return the trace of machine calls they issue, in order. -/

/-- `mmPerInch = 25.4`. -/
def mmPerInch : ℚ := 254 / 10

/-- `Position`. -/
structure Position where
  X : ℚ
  Y : ℚ
  Z : ℚ
deriving DecidableEq, Repr

/-- `zeroPosition`. -/
def zeroPosition : Position := ⟨0, 0, 0⟩

/-- `moveMode`. -/
inductive MoveMode where
  | rapidMove
  | linearMove
  | clockwiseArcMove
  | counterClockwiseArcMove
deriving DecidableEq, Repr

/-- `Plane`. -/
inductive Plane where
  | XYPlane
  | ZXPlane
  | YZPlane
deriving DecidableEq, Repr

/-- One call to the `Machine` collaborator. -/
inductive MCall where
  | setFeed : ℚ → MCall
  | rapidTo : Position → MCall
  | linearTo : Position → MCall
deriving DecidableEq, Repr

/-- The `Machine` collaborator, modelled by the error each method returns
for a given argument (`none` for success). -/
structure MachineModel where
  feedErr : ℚ → Option String
  rapidErr : Position → Option String
  linearErr : Position → Option String

/-- The engine state (`engine` struct of `engine.go`).  The `[9]Position`
array of coordinate systems is a total function on indices (the engine only
ever uses 0–8).  `useWorkPos` is the flag read and written through the
reserved parameter 5210 by `parameters.go`; the `toMachine*` helpers of this
`engine.go` revision do not consult it. -/
structure Engine where
  machine : MachineModel
  features : Features
  numParams : ℤ → Option ℚ
  nameParams : String → Option Value
  units : ℚ
  homePos : Position
  secondPos : Position
  curPos : Position
  maxPos : Position
  curCoordSys : ℕ
  coordSysPos : ℕ → Position
  workPos : Position
  savedWorkPos : Position
  useWorkPos : Bool
  moveMode : MoveMode
  absoluteMode : Bool
  absoluteArcMode : Bool
  arcPlane : Plane
  spindleOn : Bool
  spindleSpeed : ℚ
  spindleClockwise : Bool

/-- `NewEngine` defaults. -/
def NewEngine (m : MachineModel) (f : Features) : Engine where
  machine := m
  features := f
  numParams := fun _ => none
  nameParams := fun _ => none
  units := 1
  homePos := zeroPosition
  secondPos := zeroPosition
  curPos := zeroPosition
  maxPos := ⟨mmPerInch * 12, mmPerInch * 12, mmPerInch * 4⟩
  curCoordSys := 0
  coordSysPos := fun _ => zeroPosition
  workPos := zeroPosition
  savedWorkPos := zeroPosition
  useWorkPos := false
  moveMode := .linearMove
  absoluteMode := true
  absoluteArcMode := false
  arcPlane := .XYPlane
  spindleOn := false
  spindleSpeed := 0
  spindleClockwise := true

/-- `engine.rapidTo`: skip the machine call when the target equals the
current position; on a machine error the position is left unchanged. -/
def Engine.rapidTo (eng : Engine) (pos : Position) :
    Engine × List MCall × Option String :=
  if pos = eng.curPos then (eng, [], none)
  else
    match eng.machine.rapidErr pos with
    | some e => (eng, [.rapidTo pos], some e)
    | none => ({ eng with curPos := pos }, [.rapidTo pos], none)

/-- `engine.linearTo`, same shape as `engine.rapidTo`. -/
def Engine.linearTo (eng : Engine) (pos : Position) :
    Engine × List MCall × Option String :=
  if pos = eng.curPos then (eng, [], none)
  else
    match eng.machine.linearErr pos with
    | some e => (eng, [.linearTo pos], some e)
    | none => ({ eng with curPos := pos }, [.linearTo pos], none)

/-- A parsed argument (`arg`). -/
structure Arg where
  letter : Char
  num : ℚ
deriving DecidableEq, Repr

/-- The letters `parseArgs`'s switch recognises as arguments. -/
def argLetters : List Char := ['F', 'I', 'J', 'K', 'L', 'P', 'R', 'X', 'Y', 'Z']

/-- The loop of `parseArgs`: take argument codes while their letter is an
argument letter, checking it is allowed, not a duplicate, and numeric; stop
at the first other letter. -/
def parseArgsGo (allowed : List Char) (args : List Arg) :
    List Code → Except String (List Arg × List Code)
  | [] => .ok (args, [])
  | code :: rest =>
    if code.letter ∈ argLetters then
      if code.letter ∉ allowed then .error "arg not allowed"
      else if args.any (fun a => a.letter = code.letter) then
        .error "duplicate arg specified"
      else
        match code.value.asNumber with
        | none => .error "expected a number"
        | some n => parseArgsGo allowed (args ++ [⟨code.letter, n⟩]) rest
    else .ok (args, code :: rest)

/-- `parseArgs` (the allowed `argSet` is the list of allowed letters). -/
def parseArgs (codes : List Code) (allowed : List Char) :
    Except String (List Arg × List Code) :=
  parseArgsGo allowed [] codes

/-- `requireArg`. -/
def requireArg (args : List Arg) (letter : Char) : Except String ℚ :=
  match args.find? (fun a => a.letter = letter) with
  | some a => .ok a.num
  | none => .error "missing require arg"

/-- `hasArg`. -/
def hasArg (args : List Arg) (letter : Char) : Bool :=
  args.any (fun a => a.letter = letter)

/-- `engine.toMachineX`: in absolute mode subtract the active coordinate
system's offset and the work offset; in relative mode add to the current
position. -/
def Engine.toMachineX (eng : Engine) (x : ℚ) (absolute : Bool) : ℚ :=
  if absolute then x - (eng.coordSysPos eng.curCoordSys).X - eng.workPos.X
  else eng.curPos.X + x

/-- `engine.toMachineY`. -/
def Engine.toMachineY (eng : Engine) (y : ℚ) (absolute : Bool) : ℚ :=
  if absolute then y - (eng.coordSysPos eng.curCoordSys).Y - eng.workPos.Y
  else eng.curPos.Y + y

/-- `engine.toMachineZ`. -/
def Engine.toMachineZ (eng : Engine) (z : ℚ) (absolute : Bool) : ℚ :=
  if absolute then z - (eng.coordSysPos eng.curCoordSys).Z - eng.workPos.Z
  else eng.curPos.Z + z

/-- The argument loop of `engine.moveTo`: `F` drives the machine feed
(aborting on a machine error), the axis letters build the target position
(`useMachine` bypasses both offsets in absolute mode). -/
def moveToArgs (eng : Engine) (useMachine : Bool) (pos : Position) :
    List Arg → List MCall × Except String Position
  | [] => ([], .ok pos)
  | a :: rest =>
    if a.letter = 'F' then
      match eng.machine.feedErr (a.num * eng.units) with
      | some e => ([.setFeed (a.num * eng.units)], .error e)
      | none =>
        let (t, r) := moveToArgs eng useMachine pos rest
        (.setFeed (a.num * eng.units) :: t, r)
    else if a.letter = 'X' then
      moveToArgs eng useMachine
        { pos with X :=
          if useMachine then
            if eng.absoluteMode then a.num * eng.units
            else eng.curPos.X + a.num * eng.units
          else eng.toMachineX (a.num * eng.units) eng.absoluteMode } rest
    else if a.letter = 'Y' then
      moveToArgs eng useMachine
        { pos with Y :=
          if useMachine then
            if eng.absoluteMode then a.num * eng.units
            else eng.curPos.Y + a.num * eng.units
          else eng.toMachineY (a.num * eng.units) eng.absoluteMode } rest
    else if a.letter = 'Z' then
      moveToArgs eng useMachine
        { pos with Z :=
          if useMachine then
            if eng.absoluteMode then a.num * eng.units
            else eng.curPos.Z + a.num * eng.units
          else eng.toMachineZ (a.num * eng.units) eng.absoluteMode } rest
    else moveToArgs eng useMachine pos rest

/-- `engine.moveTo`: parse the `F`/`X`/`Y`/`Z` arguments, build the target,
then dispatch on the move mode (`rapidTo` or `linearTo`; an arc mode here
panics in the source and is an error in the model). -/
def Engine.moveTo (eng : Engine) (codes : List Code) (useMachine : Bool) :
    List MCall × Except String (Engine × List Code) :=
  match parseArgs codes ['F', 'X', 'Y', 'Z'] with
  | .error e => ([], .error e)
  | .ok (args, codes') =>
    match moveToArgs eng useMachine eng.curPos args with
    | (trace, .error e) => (trace, .error e)
    | (trace, .ok pos) =>
      match eng.moveMode with
      | .rapidMove =>
        let (eng', t2, err) := eng.rapidTo pos
        (trace ++ t2,
          match err with
          | some e => .error e
          | none => .ok (eng', codes'))
      | .linearMove =>
        let (eng', t2, err) := eng.linearTo pos
        (trace ++ t2,
          match err with
          | some e => .error e
          | none => .ok (eng', codes'))
      | _ => (trace, .error "unexpected moveMode")

/-- The argument loop of `engine.setWorkPosition`: each axis argument
shifts the work offset so that the current position reads as the given
value. -/
def setWorkLoop (eng : Engine) : List Arg → Engine
  | [] => eng
  | a :: rest =>
    let eng :=
      if a.letter = 'X' then
        { eng with workPos := { eng.workPos with
            X := eng.workPos.X + (eng.toMachineX (a.num * eng.units) true - eng.curPos.X) } }
      else if a.letter = 'Y' then
        { eng with workPos := { eng.workPos with
            Y := eng.workPos.Y + (eng.toMachineY (a.num * eng.units) true - eng.curPos.Y) } }
      else if a.letter = 'Z' then
        { eng with workPos := { eng.workPos with
            Z := eng.workPos.Z + (eng.toMachineZ (a.num * eng.units) true - eng.curPos.Z) } }
      else eng
    setWorkLoop eng rest

/-- `engine.setWorkPosition` (the `G92` arm): at least one axis argument is
required; afterwards the saved work offset is set to the new work offset. -/
def Engine.setWorkPosition (eng : Engine) (codes : List Code) :
    Except String (Engine × List Code) :=
  match parseArgs codes ['X', 'Y', 'Z'] with
  | .error e => .error e
  | .ok (args, codes') =>
    if args.length = 0 then .error "expected at least one X, Y, or Z arg"
    else
      let eng' := setWorkLoop eng args
      .ok ({ eng' with savedWorkPos := eng'.workPos }, codes')

/-- The `G92.1` arm of `engine.Evaluate`: zero the work offset and discard
the saved one. -/
def Engine.g92_1 (eng : Engine) : Engine :=
  { eng with workPos := zeroPosition, savedWorkPos := zeroPosition }

/-- The `G92.2` arm: save the work offset, then zero it. -/
def Engine.g92_2 (eng : Engine) : Engine :=
  { eng with savedWorkPos := eng.workPos, workPos := zeroPosition }

/-- The `G92.3` arm: restore the saved work offset. -/
def Engine.g92_3 (eng : Engine) : Engine :=
  { eng with workPos := eng.savedWorkPos }

/-! ### The numeric parameter store (`parameters.go`) -/

def homePosXParam : ℤ := 5161
def homePosYParam : ℤ := 5162
def homePosZParam : ℤ := 5163
def secondPosXParam : ℤ := 5181
def secondPosYParam : ℤ := 5182
def secondPosZParam : ℤ := 5183
def workPosEnabled : ℤ := 5210
def workPosXParam : ℤ := 5211
def workPosYParam : ℤ := 5212
def workPosZParam : ℤ := 5213
def curCoordSysParam : ℤ := 5220

/-- Nine sets of coordinate system parameters starting here. -/
def coordSysParam : ℤ := 5221

/-- Gap between each coordinate system's parameters. -/
def coordSysParamStep : ℤ := 20

/-- `engine.getCoordSysParam`: slots at offsets 0/1/2 within a stride read
the system's X/Y/Z offset in the active units; every other offset in the
stride reads 0. -/
def Engine.getCoordSysParam (eng : Engine) (num : ℤ) : Option ℚ :=
  let num := num - coordSysParam
  let coordSys := (num / coordSysParamStep).toNat
  if num % coordSysParamStep = 0 then some ((eng.coordSysPos coordSys).X / eng.units)
  else if num % coordSysParamStep = 1 then some ((eng.coordSysPos coordSys).Y / eng.units)
  else if num % coordSysParamStep = 2 then some ((eng.coordSysPos coordSys).Z / eng.units)
  else some 0

/-- Update one entry of the coordinate-system array. -/
def updateCS (f : ℕ → Position) (i : ℕ) (pos : Position) : ℕ → Position :=
  fun j => if j = i then pos else f j

/-- `engine.setCoordSysParam`: offsets 0/1/2 write the system's X/Y/Z
offset (scaled by the active units); a write to any other offset in the
stride is silently dropped. -/
def Engine.setCoordSysParam (eng : Engine) (num : ℤ) (val : ℚ) : Engine :=
  let num := num - coordSysParam
  let coordSys := (num / coordSysParamStep).toNat
  let cs := eng.coordSysPos coordSys
  if num % coordSysParamStep = 0 then
    { eng with coordSysPos := updateCS eng.coordSysPos coordSys { cs with X := val * eng.units } }
  else if num % coordSysParamStep = 1 then
    { eng with coordSysPos := updateCS eng.coordSysPos coordSys { cs with Y := val * eng.units } }
  else if num % coordSysParamStep = 2 then
    { eng with coordSysPos := updateCS eng.coordSysPos coordSys { cs with Z := val * eng.units } }
  else eng

/-- `engine.getNumParam` (`parameters.go`): the reserved slots alias engine
state, converted through the active units; the coordinate-system range test
is the source's `num >= coordSysParam && num < coordSysParam*coordSysParamStep*9`
(note the multiplication); everything else reads the general-purpose map. -/
def Engine.getNumParam (eng : Engine) (num : ℤ) : Option ℚ :=
  if num = homePosXParam then some (eng.homePos.X / eng.units)
  else if num = homePosYParam then some (eng.homePos.Y / eng.units)
  else if num = homePosZParam then some (eng.homePos.Z / eng.units)
  else if num = secondPosXParam then some (eng.secondPos.X / eng.units)
  else if num = secondPosYParam then some (eng.secondPos.Y / eng.units)
  else if num = secondPosZParam then some (eng.secondPos.Z / eng.units)
  else if num = workPosEnabled then some (if eng.useWorkPos then 1 else 0)
  else if num = workPosXParam then some (eng.workPos.X / eng.units)
  else if num = workPosYParam then some (eng.workPos.Y / eng.units)
  else if num = workPosZParam then some (eng.workPos.Z / eng.units)
  else if num = curCoordSysParam then some ((eng.curCoordSys : ℚ) + 1)
  else if coordSysParam ≤ num ∧ num < coordSysParam * coordSysParamStep * 9 then
    eng.getCoordSysParam num
  else eng.numParams num

/-- `engine.setNumParam` (`parameters.go`): reserved slots write engine
state (5210 through the tolerance test against zero, 5220 with a 1–9
integer range check); the coordinate-system range is as in
`Engine.getNumParam`; everything else writes the general-purpose map. -/
def Engine.setNumParam (eng : Engine) (num : ℤ) (val : ℚ) : Except String Engine :=
  if num = homePosXParam then
    .ok { eng with homePos := { eng.homePos with X := val * eng.units } }
  else if num = homePosYParam then
    .ok { eng with homePos := { eng.homePos with Y := val * eng.units } }
  else if num = homePosZParam then
    .ok { eng with homePos := { eng.homePos with Z := val * eng.units } }
  else if num = secondPosXParam then
    .ok { eng with secondPos := { eng.secondPos with X := val * eng.units } }
  else if num = secondPosYParam then
    .ok { eng with secondPos := { eng.secondPos with Y := val * eng.units } }
  else if num = secondPosZParam then
    .ok { eng with secondPos := { eng.secondPos with Z := val * eng.units } }
  else if num = workPosEnabled then
    .ok { eng with useWorkPos := ¬ Number.Equal val 0 }
  else if num = workPosXParam then
    .ok { eng with workPos := { eng.workPos with X := val * eng.units } }
  else if num = workPosYParam then
    .ok { eng with workPos := { eng.workPos with Y := val * eng.units } }
  else if num = workPosZParam then
    .ok { eng with workPos := { eng.workPos with Z := val * eng.units } }
  else if num = curCoordSysParam then
    let (n, ok) := Number.AsInteger val
    if ¬ok ∨ n < 1 ∨ n > 9 then .error "expected an integer between 1 and 9"
    else .ok { eng with curCoordSys := (n - 1).toNat }
  else if coordSysParam ≤ num ∧ num < coordSysParam * coordSysParamStep * 9 then
    .ok (eng.setCoordSysParam num val)
  else
    .ok { eng with numParams := fun k => if k = num then some val else eng.numParams k }

/-! ### Arc interpolation (`arc.go`)

The arc geometry computes square roots and trigonometric functions, so it is
modelled over `ℝ`; the engine's exact (`ℚ`) positions are injected at the
boundary.  The interpolation loop's sink (`linearTo`) is side-effect free in
the geometry itself: the source computes each sample point and feeds it to
`eng.linearTo`; the model returns the ordered list of machine-space sample
points the source would feed (the machine drive itself is `Engine.linearTo`,
modelled above), so an abort on a machine error cuts the same prefix. -/

/-- `engine.toArcPlane`: rotate a position so the arc is drawn in XY with Z
the rotation axis. -/
def Engine.toArcPlane (eng : Engine) (pos : Position) : Position :=
  match eng.arcPlane with
  | .XYPlane => pos
  | .ZXPlane => ⟨pos.Z, pos.X, pos.Y⟩
  | .YZPlane => ⟨pos.Y, pos.Z, pos.X⟩

/-- `engine.fromArcPlane`: the inverse rotation. -/
def Engine.fromArcPlane (eng : Engine) (pos : Position) : Position :=
  match eng.arcPlane with
  | .XYPlane => pos
  | .ZXPlane => ⟨pos.Y, pos.Z, pos.X⟩
  | .YZPlane => ⟨pos.Z, pos.X, pos.Y⟩

/-- The argument loop of `engine.arcTo`: `F` drives the feed; `I`/`J`/`K`
set the center (in arc-center mode), each forbidden — unless zero within
tolerance — for the axis normal to the active plane; `P` is a positive
integer turn count; `R` a positive radius; `X`/`Y`/`Z` the endpoint. -/
def arcToArgs (eng : Engine) (endPos centerPos : Position) (radius : ℚ)
    (turns : ℕ) : List Arg → List MCall × Except String (Position × Position × ℚ × ℕ)
  | [] => ([], .ok (endPos, centerPos, radius, turns))
  | a :: rest =>
    if a.letter = 'F' then
      match eng.machine.feedErr (a.num * eng.units) with
      | some e => ([.setFeed (a.num * eng.units)], .error e)
      | none =>
        let (t, r) := arcToArgs eng endPos centerPos radius turns rest
        (.setFeed (a.num * eng.units) :: t, r)
    else if a.letter = 'I' then
      if eng.arcPlane = .YZPlane ∧ ¬ Number.Equal a.num 0 then
        ([], .error "unexpected I for arc in YZ plane")
      else
        arcToArgs eng endPos
          { centerPos with X := eng.toMachineX (a.num * eng.units) eng.absoluteArcMode }
          radius turns rest
    else if a.letter = 'J' then
      if eng.arcPlane = .ZXPlane ∧ ¬ Number.Equal a.num 0 then
        ([], .error "unexpected J for arc in ZX plane")
      else
        arcToArgs eng endPos
          { centerPos with Y := eng.toMachineY (a.num * eng.units) eng.absoluteArcMode }
          radius turns rest
    else if a.letter = 'K' then
      if eng.arcPlane = .XYPlane ∧ ¬ Number.Equal a.num 0 then
        ([], .error "unexpected K for arc in XY plane")
      else
        arcToArgs eng endPos
          { centerPos with Z := eng.toMachineZ (a.num * eng.units) eng.absoluteArcMode }
          radius turns rest
    else if a.letter = 'P' then
      let (n, ok) := Number.AsInteger a.num
      if ¬ok ∨ n < 1 then ([], .error "expected a positive number of turns")
      else arcToArgs eng endPos centerPos radius n.toNat rest
    else if a.letter = 'R' then
      if a.num ≤ 0 then ([], .error "expected a positive radius")
      else arcToArgs eng endPos centerPos a.num turns rest
    else if a.letter = 'X' then
      arcToArgs eng
        { endPos with X := eng.toMachineX (a.num * eng.units) eng.absoluteMode }
        centerPos radius turns rest
    else if a.letter = 'Y' then
      arcToArgs eng
        { endPos with Y := eng.toMachineY (a.num * eng.units) eng.absoluteMode }
        centerPos radius turns rest
    else if a.letter = 'Z' then
      arcToArgs eng
        { endPos with Z := eng.toMachineZ (a.num * eng.units) eng.absoluteMode }
        centerPos radius turns rest
    else arcToArgs eng endPos centerPos radius turns rest

noncomputable section

/-- Real-valued position for the arc geometry. -/
structure PositionR where
  X : ℝ
  Y : ℝ
  Z : ℝ

/-- Inject an exact engine position into the arc geometry. -/
def Position.toR (p : Position) : PositionR := ⟨(p.X : ℝ), (p.Y : ℝ), (p.Z : ℝ)⟩

/-- `hypot` of `arc.go`: `math.Hypot` of the XY differences. -/
def hypotR (pos1 pos2 : PositionR) : ℝ :=
  Real.sqrt ((pos1.X - pos2.X) ^ 2 + (pos1.Y - pos2.Y) ^ 2)

/-- `math.Atan2 y x`: the argument of the complex number `x + y i` (zero at
the origin, range `(-π, π]`). -/
def atan2 (y x : ℝ) : ℝ := Complex.arg ⟨x, y⟩

/-- `radiusCenter`: derive the arc center from the chord `cur → end` and
the signed radius.  The endpoint must differ in XY from the current
position; a chord longer than the diameter by more than `minimumDelta` is
an error, a slightly longer one is clamped to the diameter; the sign of the
radius combined with the direction picks the side of the chord the center
lies on (shorter or longer arc). -/
def radiusCenter (curPos endPos : PositionR) (radius : ℝ) (clockwise : Bool) :
    Except String PositionR :=
  if curPos.X = endPos.X ∧ curPos.Y = endPos.Y then
    .error "expected endpoint different than current with radius"
  else
    let dist := hypotR curPos endPos
    let delta := dist - |radius| * 2
    if delta > (minimumDelta : ℝ) then .error "radius too small"
    else
      let dist := if delta > 0 then |radius| * 2 else dist
      let theta0 := atan2 (endPos.Y - curPos.Y) (endPos.X - curPos.X)
      let theta :=
        if (clockwise ∧ radius > 0) ∨ (¬clockwise ∧ radius < 0) then
          theta0 - Real.pi / 2
        else theta0 + Real.pi / 2
      let offset := |radius| * Real.cos (Real.arcsin (dist / (|radius| * 2)))
      .ok ⟨(curPos.X + endPos.X) / 2 + offset * Real.cos theta,
           (curPos.Y + endPos.Y) / 2 + offset * Real.sin theta, 0⟩

/-- The radius/center derivation at the head of the package-level `arcTo`
(`arc.go` lines 45–62): a non-zero radius requires the center — detected by
value — to coincide in XY with the current position and computes the center
with `radiusCenter`, using `|radius|` from there on; with a zero radius, a
center differing in XY from the current position derives the radius as the
planar distance `|cur − center|`; otherwise neither was given: error. -/
def arcDerive (curPos endPos centerPos : PositionR) (radius : ℝ)
    (clockwise : Bool) : Except String (PositionR × ℝ) :=
  if radius ≠ 0 then
    if centerPos.X ≠ curPos.X ∨ centerPos.Y ≠ curPos.Y then
      .error "both center point and radius specified for arc"
    else
      match radiusCenter curPos endPos radius clockwise with
      | .error e => .error e
      | .ok c => .ok (c, |radius|)
  else if centerPos.X ≠ curPos.X ∨ centerPos.Y ≠ curPos.Y then
    .ok (centerPos, hypotR curPos centerPos)
  else .error "expected center point or radius for arc"

/-- The interpolation of `arcTo` once center and radius are fixed (`arc.go`
lines 64–124): along-Z travel (zeroed within tolerance, which also caps the
turns at 2), start and end angles normalised into `[0, 2π)`, the total
angle from the turn count (at least 1, as the engine guarantees) and the
direction, the step count from the fixed 0.1 chord tolerance; the sample at
each intermediate step, ending with the endpoint itself. -/
def arcSamples (curPos endPos centerPos : PositionR) (radius : ℝ)
    (turns : ℕ) (clockwise : Bool) : List PositionR :=
  let normal0 := endPos.Z - curPos.Z
  let normal := if |normal0| < (minimumDelta : ℝ) then 0 else normal0
  let turns := if |normal0| < (minimumDelta : ℝ) ∧ turns > 2 then 2 else turns
  let x := curPos.X - centerPos.X
  let y := curPos.Y - centerPos.Y
  let angle0 := atan2 y x
  let angle := if angle0 < 0 then angle0 + Real.pi * 2 else angle0
  let endAngle0 := atan2 (endPos.Y - centerPos.Y) (endPos.X - centerPos.X)
  let endAngle := if endAngle0 < 0 then endAngle0 + Real.pi * 2 else endAngle0
  let angleDir : ℝ := if clockwise then -1 else 1
  let angleTotal := ((turns : ℝ) - 1) * Real.pi * 2 +
    (if angle = endAngle then Real.pi * 2
     else if angle < endAngle then
       if clockwise then Real.pi * 2 - (endAngle - angle) else endAngle - angle
     else
       if clockwise then angle - endAngle else Real.pi * 2 - (angle - endAngle))
  let travelTotal := Real.sqrt ((angleTotal * radius) ^ 2 + |normal| ^ 2)
  let numSteps : ℤ := ⌊travelTotal / (1 / 10)⌋
  let stepAngle := angleTotal / (numSteps : ℝ)
  let stepNormal := normal / (numSteps : ℝ)
  ((List.range (numSteps.toNat - 1)).map fun k =>
    let step : ℝ := (k : ℝ) + 1
    ⟨centerPos.X + radius * Real.cos (angle + step * stepAngle * angleDir),
     centerPos.Y + radius * Real.sin (angle + step * stepAngle * angleDir),
     curPos.Z + step * stepNormal⟩) ++ [endPos]

/-- The package-level `arcTo` up to its sink calls: derive center and
radius, then the ordered list of positions fed to the `linearTo` sink. -/
def arcToPoints (curPos endPos centerPos : PositionR) (radius : ℝ)
    (turns : ℕ) (clockwise : Bool) : Except String (List PositionR) :=
  match arcDerive curPos endPos centerPos radius clockwise with
  | .error e => .error e
  | .ok (c, r) => .ok (arcSamples curPos endPos c r turns clockwise)

/-- `engine.fromArcPlane` on the real-valued sample points. -/
def Engine.fromArcPlaneR (eng : Engine) (pos : PositionR) : PositionR :=
  match eng.arcPlane with
  | .XYPlane => pos
  | .ZXPlane => ⟨pos.Y, pos.Z, pos.X⟩
  | .YZPlane => ⟨pos.Z, pos.X, pos.Y⟩

/-- `engine.arcTo`: `G53` (`useMachine`) is rejected before anything else;
the arguments are parsed and folded (endpoint and center default to the
current position, radius to 0, turns to 1); the positions are rotated into
the active plane and handed to the interpolator; the machine-space sample
points that the source would feed one by one to `eng.linearTo` are
returned together with the remaining codes. -/
def Engine.arcTo (eng : Engine) (codes : List Code) (useMachine : Bool) :
    List MCall × Except String (List PositionR × List Code) :=
  if useMachine then ([], .error "G53 not allowed with arcs")
  else
    match parseArgs codes ['F', 'I', 'J', 'K', 'P', 'R', 'X', 'Y', 'Z'] with
    | .error e => ([], .error e)
    | .ok (args, codes') =>
      match arcToArgs eng eng.curPos eng.curPos 0 1 args with
      | (trace, .error e) => (trace, .error e)
      | (trace, .ok (endPos, centerPos, radius, turns)) =>
        if eng.moveMode ≠ .clockwiseArcMove ∧ eng.moveMode ≠ .counterClockwiseArcMove then
          (trace, .error "unexpected moveMode")
        else
          match arcToPoints (eng.toArcPlane eng.curPos).toR (eng.toArcPlane endPos).toR
              (eng.toArcPlane centerPos).toR (radius : ℝ) turns
              (eng.moveMode = .clockwiseArcMove) with
          | .error e => (trace, .error e)
          | .ok pts => (trace, .ok (pts.map eng.fromArcPlaneR, codes'))

end

/-! ## Theorems about the claims -/

/-- A machine whose every method succeeds. -/
def allOkMachine : MachineModel :=
  ⟨fun _ => none, fun _ => none, fun _ => none⟩

/-- The BeagleG feature set. -/
def bgf : Features := ⟨true, false, false⟩

/-- The LinuxCNC feature set. -/
def lcf : Features := ⟨false, true, false⟩

/-- The empty parameter store. -/
def np0 : ℤ → Option ℚ := fun _ => none

/-- A parser over the given input, features and numeric store, in its
initial per-line state. -/
def initParser (s : String) (f : Features) (np : ℤ → Option ℚ) : Parser where
  features := f
  input := s.data
  hasOutW := false
  hasErrW := false
  outW := ""
  errW := ""
  numParams := np
  nameParams := fun _ => none
  lineState := .beforeLineNum
  physicalLine := 1
  virtualLine := 1
  stack := []

/-- C1.  `Number.Equal` does not implement the `|a − b| < 10⁻⁴` tolerance
the claim (and the comment above the source function) states: at `a = 1`,
`b = −1` the code compares `| |1| − |−1| | = 0` against the tolerance and
returns `true`, while `|1 − (−1)| = 2` is far outside the tolerance.  The
code contradicts its own documentation ("Numbers are equal if their
absolute difference is less that 0.0001"). -/
theorem c1_number_equal_is_not_absolute_difference :
    Number.Equal 1 (-1) = true ∧ ¬ (|(1 : ℚ) - (-1)| < minimumDelta) := by
  constructor
  · with_unfolding_all rfl
  · norm_num [minimumDelta]

/-- The reserved slots exactly as the claim enumerates them (scalar engine
aliases plus the X/Y/Z offsets of the nine coordinate systems at
`5221 + 20·(system−1) + {0,1,2}`); written from the claim's words, to be
compared with what the code actually reserves. -/
def claimReservedSlot (k : ℤ) : Prop :=
  k = 5161 ∨ k = 5162 ∨ k = 5163 ∨ k = 5181 ∨ k = 5182 ∨ k = 5183 ∨
  k = 5210 ∨ k = 5211 ∨ k = 5212 ∨ k = 5213 ∨ k = 5220 ∨
  ∃ s : Fin 9, ∃ r : Fin 3, k = 5221 + 20 * (s : ℤ) + (r : ℤ)

instance (k : ℤ) : Decidable (claimReservedSlot k) := by
  unfold claimReservedSlot
  infer_instance

/-- C2 (counterexample).  Slot 5224 is not one of the reserved slots the
claim lists, yet `#5224 = 7; eval(#5224)` yields 0, not 7: the code treats
the whole range `[5221, 5221·20·9)` as coordinate-system parameters and
silently drops writes to the non-X/Y/Z offsets of each stride. -/
theorem c2_roundtrip_counterexample :
    ¬ claimReservedSlot 5224 ∧
    (match (NewEngine allOkMachine bgf).setNumParam 5224 7 with
     | .ok eng => eng.getNumParam 5224
     | .error _ => none) = some 0 ∧
    (0 : ℚ) ≠ 7 := by
  refine ⟨by decide, by with_unfolding_all rfl, by norm_num⟩

/-- C2 (amended).  For every slot `k` outside the claim's reserved list and
outside the interval `[coordSysParam, coordSysParam·coordSysParamStep·9)`
(which the code reserves wholesale), `#k = v; eval(#k)` yields exactly
`v`. -/
theorem c2_roundtrip_general_store (eng : Engine) (k : ℤ) (v : ℚ)
    (h1 : ¬ claimReservedSlot k)
    (h2 : ¬ (coordSysParam ≤ k ∧ k < coordSysParam * coordSysParamStep * 9)) :
    ∃ eng', eng.setNumParam k v = .ok eng' ∧ eng'.getNumParam k = some v := by
  simp only [claimReservedSlot, not_or] at h1
  obtain ⟨n1, n2, n3, n4, n5, n6, n7, n8, n9, n10, n11, -⟩ := h1
  refine ⟨{ eng with numParams := fun j => if j = k then some v else eng.numParams j },
    ?_, ?_⟩
  · simp only [Engine.setNumParam, homePosXParam, homePosYParam, homePosZParam,
      secondPosXParam, secondPosYParam, secondPosZParam, workPosEnabled,
      workPosXParam, workPosYParam, workPosZParam, curCoordSysParam,
      if_neg n1, if_neg n2, if_neg n3, if_neg n4, if_neg n5, if_neg n6,
      if_neg n7, if_neg n8, if_neg n9, if_neg n10, if_neg n11, if_neg h2]
  · simp only [Engine.getNumParam, homePosXParam, homePosYParam, homePosZParam,
      secondPosXParam, secondPosYParam, secondPosZParam, workPosEnabled,
      workPosXParam, workPosYParam, workPosZParam, curCoordSysParam,
      if_neg n1, if_neg n2, if_neg n3, if_neg n4, if_neg n5, if_neg n6,
      if_neg n7, if_neg n8, if_neg n9, if_neg n10, if_neg n11, if_neg h2,
      if_pos rfl]
    simp

/-- C2 witness: slot 42 round-trips the value 7 on a fresh engine. -/
theorem c2_roundtrip_general_store_witness :
    ¬ claimReservedSlot 42 ∧
    ¬ (coordSysParam ≤ 42 ∧ 42 < coordSysParam * coordSysParamStep * 9) ∧
    ∃ eng', (NewEngine allOkMachine bgf).setNumParam 42 7 = .ok eng' ∧
      eng'.getNumParam 42 = some 7 :=
  ⟨by decide, by decide,
    c2_roundtrip_general_store (NewEngine allOkMachine bgf) 42 7 (by decide) (by decide)⟩

/-- C10.  A rapid or linear motion whose target equals the current machine
position issues no machine call and leaves the engine unchanged; otherwise
exactly the one machine call is issued, and `curPos` is updated to the
target exactly when the machine returns no error. -/
theorem c10_motion_skip_and_commit (eng : Engine) (pos : Position) :
    (pos = eng.curPos →
      eng.rapidTo pos = (eng, [], none) ∧ eng.linearTo pos = (eng, [], none)) ∧
    (pos ≠ eng.curPos →
      (eng.rapidTo pos).2.1 = [.rapidTo pos] ∧
      (eng.machine.rapidErr pos = none →
        eng.rapidTo pos = ({ eng with curPos := pos }, [.rapidTo pos], none)) ∧
      (∀ e, eng.machine.rapidErr pos = some e →
        eng.rapidTo pos = (eng, [.rapidTo pos], some e)) ∧
      (eng.linearTo pos).2.1 = [.linearTo pos] ∧
      (eng.machine.linearErr pos = none →
        eng.linearTo pos = ({ eng with curPos := pos }, [.linearTo pos], none)) ∧
      (∀ e, eng.machine.linearErr pos = some e →
        eng.linearTo pos = (eng, [.linearTo pos], some e))) := by
  constructor
  · intro h
    simp [Engine.rapidTo, Engine.linearTo, h]
  · intro h
    refine ⟨?_, ?_, ?_, ?_, ?_, ?_⟩
    · cases h2 : eng.machine.rapidErr pos <;> simp [Engine.rapidTo, h, h2]
    · intro h2; simp [Engine.rapidTo, h, h2]
    · intro e h2; simp [Engine.rapidTo, h, h2]
    · cases h2 : eng.machine.linearErr pos <;> simp [Engine.linearTo, h, h2]
    · intro h2; simp [Engine.linearTo, h, h2]
    · intro e h2; simp [Engine.linearTo, h, h2]

/-- C10 witness: on a fresh engine (current position the origin, machine
all-ok), a rapid to (1,2,3) issues the call and commits the position. -/
theorem c10_motion_witness :
    ((⟨1, 2, 3⟩ : Position) ≠ (NewEngine allOkMachine bgf).curPos) ∧
    (NewEngine allOkMachine bgf).rapidTo ⟨1, 2, 3⟩ =
      ({ NewEngine allOkMachine bgf with curPos := ⟨1, 2, 3⟩ },
        [.rapidTo ⟨1, 2, 3⟩], none) :=
  ⟨by decide,
    ((c10_motion_skip_and_commit (NewEngine allOkMachine bgf) ⟨1, 2, 3⟩).2
      (by decide)).2.1 rfl⟩

/-- The engine used by the C7 counterexample: a fresh engine except for a
non-zero pre-existing work offset. -/
def c7eng : Engine := { NewEngine allOkMachine bgf with workPos := ⟨1, 0, 0⟩ }

/-- C7 (counterexample).  With a pre-existing work offset of X=1, running
`G92 X5` and then `G92.1` does not restore the pre-G92 mapping: user X=0
mapped to machine −1 before, but maps to machine 0 afterwards (G92.1 resets
the work offset to zero, not to its pre-G92 value). -/
theorem c7_g92_counterexample :
    (match c7eng.setWorkPosition [⟨'X', .num 5⟩] with
     | .ok (eng1, _) => some ((eng1.g92_1).toMachineX 0 true)
     | .error _ => none) = some 0 ∧
    c7eng.toMachineX 0 true = -1 ∧ (0 : ℚ) ≠ -1 := by
  refine ⟨by with_unfolding_all rfl, by with_unfolding_all rfl, by norm_num⟩

theorem setWorkLoop_fields (eng : Engine) (args : List Arg) :
    (setWorkLoop eng args).curPos = eng.curPos ∧
    (setWorkLoop eng args).coordSysPos = eng.coordSysPos ∧
    (setWorkLoop eng args).curCoordSys = eng.curCoordSys := by
  induction args generalizing eng with
  | nil => exact ⟨rfl, rfl, rfl⟩
  | cons a rest ih =>
    rw [setWorkLoop]
    split_ifs <;> exact ih _

/-- C7 (amended).  If the work offset is zero before the `G92` (as in the
initial engine state), then `G92 X…` followed by `G92.1` restores the
translation mapping (absolute and relative, on all three axes) that was in
effect before the `G92`. -/
theorem c7_g92_reversible_from_zero_offset (eng : Engine) (codes : List Code)
    (h0 : eng.workPos = zeroPosition) (eng' : Engine) (rest : List Code)
    (h : eng.setWorkPosition codes = .ok (eng', rest)) :
    ∀ (a : ℚ) (abs : Bool),
      (eng'.g92_1).toMachineX a abs = eng.toMachineX a abs ∧
      (eng'.g92_1).toMachineY a abs = eng.toMachineY a abs ∧
      (eng'.g92_1).toMachineZ a abs = eng.toMachineZ a abs := by
  intro a abs
  rw [Engine.setWorkPosition] at h
  split at h
  · exact absurd h (by simp)
  next args codes2 heq =>
    split at h
    · exact absurd h (by simp)
    · simp only [Except.ok.injEq, Prod.mk.injEq] at h
      obtain ⟨he, -⟩ := h
      obtain ⟨hc, hcs, hcc⟩ := setWorkLoop_fields eng args
      subst he
      constructor
      · simp [Engine.g92_1, Engine.toMachineX, hc, hcs, hcc, h0, zeroPosition]
      constructor
      · simp [Engine.g92_1, Engine.toMachineY, hc, hcs, hcc, h0, zeroPosition]
      · simp [Engine.g92_1, Engine.toMachineZ, hc, hcs, hcc, h0, zeroPosition]

/-- The engine reached by the C7 witness's `G92 X5` on a fresh engine. -/
def c7after : Engine :=
  match (NewEngine allOkMachine bgf).setWorkPosition [⟨'X', .num 5⟩] with
  | .ok (eng', _) => eng'
  | .error _ => NewEngine allOkMachine bgf

/-- C7 witness: from the fresh engine (zero work offset), `G92 X5` then
`G92.1` leaves the absolute X mapping at user X=3 unchanged. -/
theorem c7_g92_reversible_witness :
    (NewEngine allOkMachine bgf).workPos = zeroPosition ∧
    (c7after.g92_1).toMachineX 3 true = (NewEngine allOkMachine bgf).toMachineX 3 true :=
  ⟨rfl,
    (c7_g92_reversible_from_zero_offset (NewEngine allOkMachine bgf)
      [⟨'X', .num 5⟩] rfl c7after [] (by with_unfolding_all rfl) 3 true).1⟩

/-- C9.  Under `G53` (`useMachine`): an arc move fails immediately, before
any machine call (empty trace); a `G0`/`G1` in absolute mode takes its
target directly from the axis literals (converted by the active units
only), and the computed target is independent of the coordinate-system
offsets and the work offset. -/
theorem c9_g53_machine_coordinates (eng : Engine) (codes : List Code) (x y z : ℚ) :
    (eng.arcTo codes true = ([], .error "G53 not allowed with arcs")) ∧
    (eng.absoluteMode = true →
      (eng.moveMode = .rapidMove →
        eng.moveTo [⟨'X', .num x⟩, ⟨'Y', .num y⟩, ⟨'Z', .num z⟩] true =
          ((eng.rapidTo ⟨x * eng.units, y * eng.units, z * eng.units⟩).2.1,
            match (eng.rapidTo ⟨x * eng.units, y * eng.units, z * eng.units⟩).2.2 with
            | some e => .error e
            | none =>
              .ok ((eng.rapidTo ⟨x * eng.units, y * eng.units, z * eng.units⟩).1, []))) ∧
      (eng.moveMode = .linearMove →
        eng.moveTo [⟨'X', .num x⟩, ⟨'Y', .num y⟩, ⟨'Z', .num z⟩] true =
          ((eng.linearTo ⟨x * eng.units, y * eng.units, z * eng.units⟩).2.1,
            match (eng.linearTo ⟨x * eng.units, y * eng.units, z * eng.units⟩).2.2 with
            | some e => .error e
            | none =>
              .ok ((eng.linearTo ⟨x * eng.units, y * eng.units, z * eng.units⟩).1, [])))) ∧
    (∀ (cs : ℕ → Position) (wp : Position) (args : List Arg) (pos : Position),
      moveToArgs { eng with coordSysPos := cs, workPos := wp } true pos args =
        moveToArgs eng true pos args) := by
  refine ⟨rfl, ?_, ?_⟩
  · intro habs
    have hp : parseArgs [⟨'X', .num x⟩, ⟨'Y', .num y⟩, ⟨'Z', .num z⟩]
        ['F', 'X', 'Y', 'Z'] =
        .ok ([⟨'X', x⟩, ⟨'Y', y⟩, ⟨'Z', z⟩], []) := rfl
    have hargs : moveToArgs eng true eng.curPos [⟨'X', x⟩, ⟨'Y', y⟩, ⟨'Z', z⟩] =
        ([], .ok ⟨x * eng.units, y * eng.units, z * eng.units⟩) := by
      simp [moveToArgs, habs]
    constructor
    · intro hmode
      unfold Engine.moveTo
      rw [hp]
      dsimp only
      rw [hargs, hmode]
      dsimp only
      rcases hr : eng.rapidTo ⟨x * eng.units, y * eng.units, z * eng.units⟩ with
        ⟨e1, t2, err⟩
      simp [hr]
    · intro hmode
      unfold Engine.moveTo
      rw [hp]
      dsimp only
      rw [hargs, hmode]
      dsimp only
      rcases hr : eng.linearTo ⟨x * eng.units, y * eng.units, z * eng.units⟩ with
        ⟨e1, t2, err⟩
      simp [hr]
  · intro cs wp args
    induction args with
    | nil => intro pos; rfl
    | cons a rest ih =>
      intro pos
      rw [moveToArgs, moveToArgs]
      split_ifs <;> simp [ih] <;> simp_all

/-- The engine used by the C9 witness: fresh, in rapid mode. -/
def c9eng : Engine := { NewEngine allOkMachine bgf with moveMode := .rapidMove }

/-- C9 witness: on a fresh rapid-mode engine, an arc under `G53` errors
with no machine call, and `G0 X1 Y2 Z3` under `G53` targets machine
(1,2,3). -/
theorem c9_g53_witness :
    (c9eng.arcTo [⟨'X', .num 1⟩] true = ([], .error "G53 not allowed with arcs")) ∧
    c9eng.absoluteMode = true ∧ c9eng.moveMode = .rapidMove ∧
    c9eng.moveTo [⟨'X', .num 1⟩, ⟨'Y', .num 2⟩, ⟨'Z', .num 3⟩] true =
      ((c9eng.rapidTo ⟨1 * c9eng.units, 2 * c9eng.units, 3 * c9eng.units⟩).2.1,
        match (c9eng.rapidTo ⟨1 * c9eng.units, 2 * c9eng.units, 3 * c9eng.units⟩).2.2 with
        | some e => .error e
        | none =>
          .ok ((c9eng.rapidTo ⟨1 * c9eng.units, 2 * c9eng.units, 3 * c9eng.units⟩).1, [])) :=
  ⟨(c9_g53_machine_coordinates c9eng [⟨'X', .num 1⟩] 1 2 3).1, rfl, rfl,
    ((c9_g53_machine_coordinates c9eng [⟨'X', .num 1⟩] 1 2 3).2.1 rfl).1 rfl⟩

/-- A store holding only `#100 = 0`, for the assignment-timing scenario. -/
def np100 : ℤ → Option ℚ := fun k => if k = 100 then some (0 : ℚ) else none

/-- C5.  Assignment timing: under LinuxCNC an assignment action leaves the
parameter store untouched and appends its closure at the end of the
deferred queue; the end-of-line action runs the queued closures first to
last (flushing a concatenation is flushing the first part then the second)
and clears the queue; without LinuxCNC the assignment is applied on the
spot.  Concretely, for the line `#100=1 X#100 #100=2` starting from
`#100 = 0`: under LinuxCNC the `X` code still reads 0 and the line leaves
`#100 = 2`; under BeagleG the `X` code reads 1 and the line leaves
`#100 = 2`. -/
theorem c5_assignment_timing :
    (∀ (p : Parser) (codes : List Code) (efs : List Deferred) (n : ℤ)
        (op : AssignOp) (e : Expr), p.features.hasLinuxCNC = true →
      evalAction p codes efs (.assignAct (.anum n op e)) =
        .ok (p, codes, efs ++ [.dnum n op e], false)) ∧
    (∀ (p : Parser) (codes : List Code) (efs : List Deferred) (nm : String)
        (op : AssignOp) (e : Expr), p.features.hasLinuxCNC = true →
      evalAction p codes efs (.assignAct (.aname nm op e)) =
        .ok (p, codes, efs ++ [.dname nm op e], false)) ∧
    (∀ (p : Parser) (codes : List Code) (efs : List Deferred),
      evalAction p codes efs .eol =
        (flushDeferred p efs).map (fun p' => (p', codes, ([] : List Deferred), true))) ∧
    (∀ (p : Parser) (efs1 efs2 : List Deferred),
      flushDeferred p (efs1 ++ efs2) =
        (flushDeferred p efs1).bind (fun p' => flushDeferred p' efs2)) ∧
    (∀ (p : Parser) (codes : List Code) (efs : List Deferred) (n : ℤ)
        (op : AssignOp) (e : Expr), p.features.hasLinuxCNC = false →
      evalAction p codes efs (.assignAct (.anum n op e)) =
        (do
          let q ← wantNumber (← evalExpr p e)
          let p' ← numAssignment p n op q
          .ok (p', codes, efs, false))) ∧
    ((match runParse 30 (initParser "#100=1 X#100 #100=2\n" lcf np100) [] [] with
      | .ok (codes, p') => some (codes, p'.numParams 100)
      | .error _ => none) = some ([⟨'X', .num 0⟩], some 2)) ∧
    ((match runParse 30 (initParser "#100=1 X#100 #100=2\n" bgf np100) [] [] with
      | .ok (codes, p') => some (codes, p'.numParams 100)
      | .error _ => none) = some ([⟨'X', .num 1⟩], some 2)) := by
  refine ⟨?_, ?_, ?_, ?_, ?_, ?_, ?_⟩
  · intro p codes efs n op e h
    rw [evalAction, evalAssign, if_pos h]
  · intro p codes efs nm op e h
    rw [evalAction, evalAssign, if_pos h]
  · intro p codes efs
    rw [evalAction]
    cases h : flushDeferred p efs <;> simp [h, Except.map, Bind.bind, Except.bind]
  · intro p efs1 efs2
    induction efs1 generalizing p with
    | nil => simp [flushDeferred, Bind.bind, Except.bind]
    | cons d rest ih =>
      rw [List.cons_append, flushDeferred, flushDeferred]
      cases h : applyDeferred p d <;>
        simp [h, Bind.bind, Except.bind, ih]
  · intro p codes efs n op e h
    rw [evalAction, evalAssign, if_neg (by simp [h])]
  · with_unfolding_all rfl
  · with_unfolding_all rfl

/-- C5 witness: under LinuxCNC, the assignment `#7 = 5` on an otherwise
fresh parser is queued, with the store untouched. -/
theorem c5_assignment_timing_witness :
    (initParser "" lcf np0).features.hasLinuxCNC = true ∧
    evalAction (initParser "" lcf np0) [] [] (.assignAct (.anum 7 .assign (.num 5))) =
      .ok (initParser "" lcf np0, [], [.dnum 7 .assign (.num 5)], false) :=
  ⟨rfl, c5_assignment_timing.1 (initParser "" lcf np0) [] [] 7 .assign (.num 5) rfl⟩

theorem skipWhitespace_append (ws l : List Char)
    (hws : ∀ c ∈ ws, c = ' ' ∨ c = '\t') :
    skipWhitespace (ws ++ l) = skipWhitespace l := by
  induction ws with
  | nil => rfl
  | cons c rest ih =>
    rw [List.cons_append, skipWhitespace,
      if_pos (hws c (List.mem_cons_self c rest))]
    exact ih fun d hd => hws d (List.mem_cons_of_mem c hd)

theorem symbolByte_not_special (b : Char) (h : symbolByte b = true) :
    b ≠ '\n' ∧ b ≠ '\r' ∧ b ≠ ';' ∧ b ≠ '%' ∧ b ≠ '(' ∧ b ≠ '*' ∧ b ≠ '#' ∧
    ¬(b < 'A' ∨ b > 'Z') := by
  simp only [symbolByte, decide_eq_true_eq] at h
  obtain ⟨h1, h2⟩ := h
  refine ⟨?_, ?_, ?_, ?_, ?_, ?_, ?_, ?_⟩
  · rintro rfl; exact absurd h1 (by decide)
  · rintro rfl; exact absurd h1 (by decide)
  · rintro rfl; exact absurd h1 (by decide)
  · rintro rfl; exact absurd h1 (by decide)
  · rintro rfl; exact absurd h1 (by decide)
  · rintro rfl; exact absurd h1 (by decide)
  · rintro rfl; exact absurd h1 (by decide)
  · rintro (h3 | h3)
    · exact absurd h1 (not_le.mpr h3)
    · exact absurd h2 (not_le.mpr h3)

theorem upcase_symbol_not_ws (c : Char) (h : symbolByte (upcaseByte c) = true) :
    ¬(c = ' ' ∨ c = '\t') := by
  rintro (rfl | rfl) <;> exact absurd h (by decide)

theorem parseSymLoop_ne_empty (cs : List Char) (acc : List Char) (hacc : acc ≠ [])
    (s : String) (r : List Char) (h : parseSymbol.parseSymLoop acc cs = .ok (s, r)) :
    s ≠ "" := by
  induction cs generalizing acc with
  | nil => simp [parseSymbol.parseSymLoop] at h
  | cons b rest ih =>
    rw [parseSymbol.parseSymLoop] at h
    split at h
    · exact ih _ (by simp) h
    · simp only [Except.ok.injEq, Prod.mk.injEq] at h
      rw [← h.1]
      intro he
      exact hacc (by simpa [String.ext_iff] using he)

/-- C8 (counterexample).  A logical line may contain a checksum more than
once: the line `*1 *2` parses without error straight to its end-of-line
action (each `*nnn` is parsed and discarded; the `*` branch performs no
check against an earlier checksum). -/
theorem c8_checksum_counterexample :
    (match parse 10 (initParser "*1 *2\nX1\n" bgf np0) with
     | .ok (.eol, p') => some (String.mk p'.input)
     | _ => none) = some "X1\n" := by
  with_unfolding_all rfl

theorem bind_ok {ε α β : Type} (a : α) (f : α → Except ε β) :
    (Except.ok a >>= f) = f a := rfl

/-- C8 (amended).  A `*nnn` checksum is parsed, discarded and puts the line
in the after-checksum state, with no at-most-once check (a second checksum
on the same line is accepted); once in the after-checksum state, an
assignment, a keyword, or a code letter on the same line is a parse
error. -/
theorem c8_checksum_behaviour :
    (∀ (f : ℕ) (p : Parser) (l : List Char) (num : ℤ) (rest : List Char),
      p.input = '*' :: l → wantInteger l = .ok (num, rest) →
      parse (f + 1) p = parse f { p with input := rest, lineState := .afterChecksum }) ∧
    (∀ (f : ℕ) (p : Parser) (ws rest : List Char),
      (∀ c ∈ ws, c = ' ' ∨ c = '\t') → p.lineState = .afterChecksum →
      p.input = ws ++ '#' :: rest →
      parse (f + 1) p = .error (.msg "checksum (*nnn) must be at end of line")) ∧
    (∀ (f : ℕ) (p : Parser) (ws : List Char) (c c2 : Char) (rest : List Char)
        (sym : String) (rest2 : List Char),
      (∀ d ∈ ws, d = ' ' ∨ d = '\t') → p.lineState = .afterChecksum →
      p.input = ws ++ c :: c2 :: rest → symbolByte (upcaseByte c) = true →
      symbolByte (upcaseByte c2) = true →
      parseSymbol (upcaseByte c) (c2 :: rest) = .ok (sym, rest2) →
      parse (f + 1) p = .error (.msg "checksum (*nnn) must be at end of line")) ∧
    (∀ (f : ℕ) (p : Parser) (ws : List Char) (c c2 : Char) (rest : List Char),
      (∀ d ∈ ws, d = ' ' ∨ d = '\t') → p.lineState = .afterChecksum →
      p.input = ws ++ c :: c2 :: rest → symbolByte (upcaseByte c) = true →
      upcaseByte c ≠ 'N' → ¬ symbolByte (upcaseByte c2) = true →
      parse (f + 1) p = .error (.msg "checksum (*nnn) must be at end of line")) := by
  refine ⟨?_, ?_, ?_, ?_⟩
  · intro f p l num rest hin hw
    have d0 : ¬('*' = ' ' ∨ '*' = '\t') := by decide
    have d1 : ¬(upcaseByte '*' = '\n' ∨ upcaseByte '*' = '\r') := by decide
    have d2 : ¬(upcaseByte '*' = ';' ∨ upcaseByte '*' = '%') := by decide
    have d3 : ¬(upcaseByte '*' = '(') := by decide
    have d4 : upcaseByte '*' = '*' := by decide
    rw [parse, hin, skipWhitespace, if_neg d0, bind_ok]
    dsimp only
    rw [if_neg d1, if_neg d2, if_neg d3, if_pos d4, hw, bind_ok]
  · intro f p ws rest hws hls hin
    have d0 : ¬('#' = ' ' ∨ '#' = '\t') := by decide
    have d1 : ¬(upcaseByte '#' = '\n' ∨ upcaseByte '#' = '\r') := by decide
    have d2 : ¬(upcaseByte '#' = ';' ∨ upcaseByte '#' = '%') := by decide
    have d3 : ¬(upcaseByte '#' = '(') := by decide
    have d4 : ¬(upcaseByte '#' = '*') := by decide
    have d5 : upcaseByte '#' = '#' := by decide
    rw [parse, hin, skipWhitespace_append ws _ hws, skipWhitespace, if_neg d0,
      bind_ok]
    dsimp only
    rw [if_neg d1, if_neg d2, if_neg d3, if_neg d4, if_pos d5, if_pos hls]
  · intro f p ws c c2 rest sym rest2 hws hls hin hc hc2 hsym
    obtain ⟨e1, e2, e3, e4, e5, e6, e7, e8⟩ := symbolByte_not_special _ hc
    have hnws := upcase_symbol_not_ws c hc
    have hsymne : sym ≠ "" := by
      rw [parseSymbol] at hsym
      rw [if_pos hc2] at hsym
      exact parseSymLoop_ne_empty _ _ (by simp) _ _ hsym
    have d1 : ¬(upcaseByte c = '\n' ∨ upcaseByte c = '\r') := not_or.mpr ⟨e1, e2⟩
    have d2 : ¬(upcaseByte c = ';' ∨ upcaseByte c = '%') := not_or.mpr ⟨e3, e4⟩
    rw [parse, hin, skipWhitespace_append ws _ hws, skipWhitespace, if_neg hnws,
      bind_ok]
    dsimp only
    rw [if_neg d1, if_neg d2, if_neg e5, if_neg e6, if_neg e7, if_neg e8, hsym,
      bind_ok]
    dsimp only
    rw [if_pos hsymne, if_pos hls]
  · intro f p ws c c2 rest hws hls hin hc hn hc2
    obtain ⟨e1, e2, e3, e4, e5, e6, e7, e8⟩ := symbolByte_not_special _ hc
    have hnws := upcase_symbol_not_ws c hc
    have hsym : parseSymbol (upcaseByte c) (c2 :: rest) = .ok ("", c2 :: rest) := by
      rw [parseSymbol, if_neg hc2]
    have hne : ¬(("" : String) ≠ "") := fun h => h rfl
    have d1 : ¬(upcaseByte c = '\n' ∨ upcaseByte c = '\r') := not_or.mpr ⟨e1, e2⟩
    have d2 : ¬(upcaseByte c = ';' ∨ upcaseByte c = '%') := not_or.mpr ⟨e3, e4⟩
    rw [parse, hin, skipWhitespace_append ws _ hws, skipWhitespace, if_neg hnws,
      bind_ok]
    dsimp only
    rw [if_neg d1, if_neg d2, if_neg e5, if_neg e6, if_neg e7, if_neg e8, hsym,
      bind_ok]
    dsimp only
    rw [if_neg hne, if_neg hn, if_pos hls]

/-- C8 witness: after a checksum, the assignment `#1=2` on the same line is
the checksum parse error. -/
theorem c8_checksum_behaviour_witness :
    ({ initParser " #1=2\n" bgf np0 with lineState := .afterChecksum }).lineState =
      .afterChecksum ∧
    parse 5 { initParser " #1=2\n" bgf np0 with lineState := .afterChecksum } =
      .error (.msg "checksum (*nnn) must be at end of line") :=
  ⟨rfl,
    c8_checksum_behaviour.2.1 4
      { initParser " #1=2\n" bgf np0 with lineState := .afterChecksum }
      [' '] "1=2\n".data (by decide) rfl rfl⟩

/-- C4 (counterexample).  The while test is not compared to zero exactly:
the push condition is `!Number.Equal(0, val)`, so a test whose value is
`1/20000` — non-zero, but within the `1e-4` tolerance of zero — does NOT
push the body: the loop is not entered although the test is non-zero. -/
theorem c4_while_counterexample :
    evalAction (initParser "" bgf np0) [] []
        (.whileAct (.num (1 / 20000)) []) =
      .ok (initParser "" bgf np0, [], [], false) ∧
    (1 / 20000 : ℚ) ≠ 0 := by
  constructor
  · with_unfolding_all rfl
  · norm_num

/-- C4 (amended).  (a) A BeagleG while action whose test evaluates to the
number `q` pushes its body onto the execution stack with the while action
itself re-appended as the body's last element — so the test is re-evaluated
after every iteration — exactly when `q` is not `Number.Equal` to `0`
(tolerance comparison, not exact non-zero), and leaves the parser unchanged
otherwise.  (b) Running the program
`#100=0 / WHILE [#100 < 10] DO / #100 += 1 / END / G1` yields the single
code `G1` with numeric parameter 100 equal to 10. -/
theorem c4_while_semantics :
    (∀ (p : Parser) (codes : List Code) (efs : List Deferred) (test : Expr)
        (body : List Action) (q : ℚ),
      evalExpr p test = .ok (.num q) →
      evalAction p codes efs (.whileAct test body) =
        if ¬ Number.Equal 0 q then
          .ok ({ p with stack := (body ++ [.whileAct test body]) :: p.stack },
            codes, efs, false)
        else .ok (p, codes, efs, false)) ∧
    (match runParse 200
        (initParser "#100=0\nWHILE [#100 < 10] DO\n#100 += 1\nEND\nG1\n" bgf np0)
        [] [] with
     | .ok (codes, p') => some (codes, p'.numParams 100)
     | .error _ => none) = some ([⟨'G', .num 1⟩], some 10) := by
  constructor
  · intro p codes efs test body q h
    have hw : wantNumber (Value.num q) = .ok q := rfl
    rw [evalAction, h, bind_ok, hw, bind_ok]
  · with_unfolding_all rfl

/-- C4 witness: a while action whose test is the literal `1` pushes its
body (with itself re-appended). -/
theorem c4_while_semantics_witness :
    evalExpr (initParser "" bgf np0) (.num 1) = .ok (.num 1) ∧
    evalAction (initParser "" bgf np0) [] [] (.whileAct (.num 1) []) =
      (if ¬ Number.Equal 0 1 then
        .ok ({ initParser "" bgf np0 with
          stack := ([] ++ [.whileAct (.num 1) []]) ::
            (initParser "" bgf np0).stack }, [], [], false)
      else .ok (initParser "" bgf np0, [], [], false)) :=
  ⟨rfl, c4_while_semantics.1 (initParser "" bgf np0) [] [] (.num 1) [] 1 rfl⟩

theorem adjustP_num (f : ℕ) (a : ℚ) : adjustP f (.num a) = .num a := by
  cases f with
  | zero => rw [adjustP]
  | succ f => simp [adjustP]

theorem adjustP_binlit (f : ℕ) (op : Op) (b c : ℚ) :
    adjustP f (.binary op (.num b) (.num c)) = .binary op (.num b) (.num c) := by
  cases f with
  | zero => rw [adjustP]
  | succ f =>
    rw [adjustP, adjustP_num, adjustP_num]
    dsimp only
    rw [adjustP.adjustLeft.eq_def]

theorem adjustP_leftheavy (f : ℕ) (op₁ op₂ : Op)
    (h : ¬ op₁.precedence < op₂.precedence) (a b c : ℚ) :
    adjustP f (.binary op₂ (.binary op₁ (.num a) (.num b)) (.num c)) =
      .binary op₂ (.binary op₁ (.num a) (.num b)) (.num c) := by
  cases f with
  | zero => rw [adjustP]
  | succ f =>
    rw [adjustP, adjustP_binlit, adjustP_num]
    dsimp only
    rw [adjustP.adjustLeft.eq_def]
    dsimp only
    rw [if_neg h]

theorem adjustP_rot (f : ℕ) (op₁ op₂ : Op) (a b c : ℚ) :
    adjustP (f + 1) (.binary op₁ (.num a) (.binary op₂ (.num b) (.num c))) =
      if op₂.precedence ≤ op₁.precedence then
        .binary op₂ (.binary op₁ (.num a) (.num b)) (.num c)
      else .binary op₁ (.num a) (.binary op₂ (.num b) (.num c)) := by
  rw [adjustP, adjustP_num, adjustP_binlit]
  dsimp only
  by_cases hp : op₂.precedence ≤ op₁.precedence
  · rw [if_pos hp, if_pos hp]
    exact adjustP_leftheavy f op₁ op₂ (not_lt.mpr hp) a b c
  · rw [if_neg hp, if_neg hp]
    rw [adjustP.adjustLeft.eq_def]

/-- C3.  (a) The precedence-rotation pass on the right-leaning raw parse of
`a op₁ b op₂ c` produces the left grouping `(a op₁ b) op₂ c` when
`prec(op₂) ≤ prec(op₁)` and keeps the right grouping `a op₁ (b op₂ c)`
otherwise, for every pair of binary operators; (b) evaluation therefore
takes the corresponding value; (c) concretely, `[1+2*3]` evaluates to 7,
`[2*3+4]` to 10, and — equal precedence associating left-to-right —
`[8-2-3]` to 3. -/
theorem c3_precedence :
    (∀ (op₁ op₂ : Op), op₁.isBinary = true → op₂.isBinary = true →
      ∀ (a b c : ℚ),
      adjustPrecedence (.binary op₁ (.num a) (.binary op₂ (.num b) (.num c))) =
        if op₂.precedence ≤ op₁.precedence then
          .binary op₂ (.binary op₁ (.num a) (.num b)) (.num c)
        else .binary op₁ (.num a) (.binary op₂ (.num b) (.num c))) ∧
    (∀ (op₁ op₂ : Op), op₁.isBinary = true → op₂.isBinary = true →
      ∀ (a b c : ℚ) (p : Parser),
      evalExpr p
          (adjustPrecedence
            (.binary op₁ (.num a) (.binary op₂ (.num b) (.num c)))) =
        if op₂.precedence ≤ op₁.precedence then
          evalExpr p (.binary op₂ (.binary op₁ (.num a) (.num b)) (.num c))
        else evalExpr p (.binary op₁ (.num a) (.binary op₂ (.num b) (.num c)))) ∧
    (match parseExpr 99 bgf "[1+2*3]\n".data with
     | .ok (e, _) => some (evalExpr (initParser "" bgf np0) e)
     | .error _ => none) = some (.ok (.num 7)) ∧
    (match parseExpr 99 bgf "[2*3+4]\n".data with
     | .ok (e, _) => some (evalExpr (initParser "" bgf np0) e)
     | .error _ => none) = some (.ok (.num 10)) ∧
    (match parseExpr 99 bgf "[8-2-3]\n".data with
     | .ok (e, _) => some (evalExpr (initParser "" bgf np0) e)
     | .error _ => none) = some (.ok (.num 3)) := by
  have key : ∀ (op₁ op₂ : Op) (a b c : ℚ),
      adjustPrecedence (.binary op₁ (.num a) (.binary op₂ (.num b) (.num c))) =
        if op₂.precedence ≤ op₁.precedence then
          .binary op₂ (.binary op₁ (.num a) (.num b)) (.num c)
        else .binary op₁ (.num a) (.binary op₂ (.num b) (.num c)) := by
    intro op₁ op₂ a b c
    have h26 :
        adjustPrecedence
            (.binary op₁ (.num a) (.binary op₂ (.num b) (.num c))) =
          adjustP (25 + 1)
            (.binary op₁ (.num a) (.binary op₂ (.num b) (.num c))) := rfl
    rw [h26, adjustP_rot]
  refine ⟨fun op₁ op₂ _ _ a b c => key op₁ op₂ a b c, ?_, ?_, ?_, ?_⟩
  · intro op₁ op₂ _ _ a b c p
    rw [key, apply_ite (evalExpr p)]
  · with_unfolding_all rfl
  · with_unfolding_all rfl
  · with_unfolding_all rfl

/-- C3 witness: at `op₁ = +`, `op₂ = *` (both binary), `[1 + 2*3]` keeps the
right grouping since `prec(*) > prec(+)`. -/
theorem c3_precedence_witness :
    Op.isBinary addOp = true ∧ Op.isBinary multiplyOp = true ∧
    adjustPrecedence
        (.binary addOp (.num 1) (.binary multiplyOp (.num 2) (.num 3))) =
      (if Op.precedence multiplyOp ≤ Op.precedence addOp then
        .binary multiplyOp (.binary addOp (.num 1) (.num 2)) (.num 3)
      else .binary addOp (.num 1) (.binary multiplyOp (.num 2) (.num 3))) :=
  ⟨rfl, rfl, c3_precedence.1 addOp multiplyOp rfl rfl 1 2 3⟩

/-- The engine used by the C6 counterexample: a fresh engine put in
clockwise-arc move mode (`G2`). -/
def c6eng : Engine :=
  { NewEngine allOkMachine bgf with moveMode := .clockwiseArcMove }

theorem radiusCenter_ok (cur endp : PositionR) (r : ℝ) (cw : Bool)
    (h1 : ¬(cur.X = endp.X ∧ cur.Y = endp.Y))
    (h2 : ¬(hypotR cur endp - |r| * 2 > (minimumDelta : ℝ))) :
    ∃ c, radiusCenter cur endp r cw = .ok c := by
  rw [radiusCenter, if_neg h1]
  dsimp only
  rw [if_neg h2]
  exact ⟨_, rfl⟩

/-- C6 (counterexample).  Giving a radius together with a center offset is
not an error when the offsets happen to place the center at the current
position: in the default incremental arc-center mode, `G2 I0 J0 R1 X2`
passes both a center (`I0 J0`) and a radius (`R1`), yet the arc succeeds —
the code detects "center given" by comparing the center's value with the
current position, not by argument presence. -/
theorem c6_arc_counterexample :
    ∃ pts,
      c6eng.arcTo [⟨'I', .num 0⟩, ⟨'J', .num 0⟩, ⟨'R', .num 1⟩, ⟨'X', .num 2⟩]
          false =
        ([], .ok (pts, [])) := by
  have hargs : parseArgs
      [(⟨'I', .num 0⟩ : Code), ⟨'J', .num 0⟩, ⟨'R', .num 1⟩, ⟨'X', .num 2⟩]
      ['F', 'I', 'J', 'K', 'P', 'R', 'X', 'Y', 'Z'] =
      .ok ([⟨'I', 0⟩, ⟨'J', 0⟩, ⟨'R', 1⟩, ⟨'X', 2⟩], []) := by
    with_unfolding_all rfl
  have hfold : arcToArgs c6eng c6eng.curPos c6eng.curPos 0 1
      [⟨'I', 0⟩, ⟨'J', 0⟩, ⟨'R', 1⟩, ⟨'X', 2⟩] =
      ([], .ok (⟨2, 0, 0⟩, ⟨0, 0, 0⟩, 1, 1)) := by
    with_unfolding_all rfl
  have hmm : ¬(c6eng.moveMode ≠ .clockwiseArcMove ∧
      c6eng.moveMode ≠ .counterClockwiseArcMove) := fun h => h.1 rfl
  have hhyp : hypotR (Position.toR ⟨0, 0, 0⟩) (Position.toR ⟨2, 0, 0⟩) = 2 := by
    rw [hypotR,
      show ((Position.toR ⟨0, 0, 0⟩).X - (Position.toR ⟨2, 0, 0⟩).X) ^ 2 +
          ((Position.toR ⟨0, 0, 0⟩).Y - (Position.toR ⟨2, 0, 0⟩).Y) ^ 2 =
          (2 : ℝ) ^ 2 from by norm_num [Position.toR]]
    exact Real.sqrt_sq (by norm_num)
  obtain ⟨c, hc⟩ := radiusCenter_ok (Position.toR ⟨0, 0, 0⟩)
    (Position.toR ⟨2, 0, 0⟩) (((1 : ℚ) : ℝ)) true
    (by norm_num [Position.toR])
    (by rw [hhyp]; norm_num [minimumDelta])
  have hd : arcDerive (Position.toR ⟨0, 0, 0⟩) (Position.toR ⟨2, 0, 0⟩)
      (Position.toR ⟨0, 0, 0⟩) (((1 : ℚ) : ℝ)) true =
      .ok (c, |(((1 : ℚ) : ℝ))|) := by
    rw [arcDerive, if_pos (by norm_num : (((1 : ℚ) : ℝ)) ≠ 0),
      if_neg (by simp), hc]
  have harc : arcToPoints (Position.toR ⟨0, 0, 0⟩) (Position.toR ⟨2, 0, 0⟩)
      (Position.toR ⟨0, 0, 0⟩) (((1 : ℚ) : ℝ)) 1 true =
      .ok (arcSamples (Position.toR ⟨0, 0, 0⟩) (Position.toR ⟨2, 0, 0⟩) c
        (|(((1 : ℚ) : ℝ))|) 1 true) := by
    rw [arcToPoints, hd]
  rw [Engine.arcTo, if_neg Bool.false_ne_true, hargs]
  dsimp only
  rw [hfold]
  dsimp only
  rw [if_neg hmm]
  have hcur : (c6eng.toArcPlane c6eng.curPos).toR = Position.toR ⟨0, 0, 0⟩ := rfl
  have hend : (c6eng.toArcPlane ⟨2, 0, 0⟩).toR = Position.toR ⟨2, 0, 0⟩ := rfl
  have hcen : (c6eng.toArcPlane ⟨0, 0, 0⟩).toR = Position.toR ⟨0, 0, 0⟩ := rfl
  have hcw : decide (c6eng.moveMode = MoveMode.clockwiseArcMove) = true := by
    decide
  rw [hcur, hend, hcen, hcw, harc]
  exact ⟨_, rfl⟩

/-- C6 (amended).  The radius/center derivation at the head of `arcTo`:
(a) a non-zero radius with a center whose XY value differs from the current
position is the error "both center point and radius specified for arc" —
the check is by value, so offsets that land the center on the current
position do not trigger it; (b) zero radius and center equal to the current
position is the error "expected center point or radius for arc"; (c) zero
radius with a center differing from the current position derives the radius
as the planar distance |cur − center|; (d) a non-zero radius with center
equal to the current position takes the center from `radiusCenter` (the
chord construction, whose side selection uses the radius sign and the
direction), with the radius replaced by its absolute value, propagating
`radiusCenter`'s errors; (e) at the engine layer an `R` argument must be
strictly positive, so a negative signed radius is unreachable from G2/G3
codes. -/
theorem c6_arc_radius_center :
    (∀ (curPos endPos centerPos : PositionR) (radius : ℝ) (cw : Bool),
      radius ≠ 0 → (centerPos.X ≠ curPos.X ∨ centerPos.Y ≠ curPos.Y) →
      arcDerive curPos endPos centerPos radius cw =
        .error "both center point and radius specified for arc") ∧
    (∀ (curPos endPos centerPos : PositionR) (cw : Bool),
      ¬(centerPos.X ≠ curPos.X ∨ centerPos.Y ≠ curPos.Y) →
      arcDerive curPos endPos centerPos 0 cw =
        .error "expected center point or radius for arc") ∧
    (∀ (curPos endPos centerPos : PositionR) (cw : Bool),
      (centerPos.X ≠ curPos.X ∨ centerPos.Y ≠ curPos.Y) →
      arcDerive curPos endPos centerPos 0 cw =
        .ok (centerPos,
          Real.sqrt ((curPos.X - centerPos.X) ^ 2 +
            (curPos.Y - centerPos.Y) ^ 2))) ∧
    (∀ (curPos endPos centerPos : PositionR) (radius : ℝ) (cw : Bool)
        (c : PositionR),
      radius ≠ 0 → ¬(centerPos.X ≠ curPos.X ∨ centerPos.Y ≠ curPos.Y) →
      radiusCenter curPos endPos radius cw = .ok c →
      arcDerive curPos endPos centerPos radius cw = .ok (c, |radius|)) ∧
    (∀ (curPos endPos centerPos : PositionR) (radius : ℝ) (cw : Bool)
        (e : String),
      radius ≠ 0 → ¬(centerPos.X ≠ curPos.X ∨ centerPos.Y ≠ curPos.Y) →
      radiusCenter curPos endPos radius cw = .error e →
      arcDerive curPos endPos centerPos radius cw = .error e) ∧
    (∀ (eng : Engine) (endPos centerPos : Position) (radius : ℚ) (turns : ℕ)
        (q : ℚ) (rest : List Arg), q ≤ 0 →
      arcToArgs eng endPos centerPos radius turns (⟨'R', q⟩ :: rest) =
        ([], .error "expected a positive radius")) := by
  have h00 : ¬((0 : ℝ) ≠ 0) := fun h => h rfl
  refine ⟨?_, ?_, ?_, ?_, ?_, ?_⟩
  · intro curPos endPos centerPos radius cw h1 h2
    rw [arcDerive, if_pos h1, if_pos h2]
  · intro curPos endPos centerPos cw h
    rw [arcDerive, if_neg h00, if_neg h]
  · intro curPos endPos centerPos cw h
    rw [arcDerive, if_neg h00, if_pos h]
    rfl
  · intro curPos endPos centerPos radius cw c h1 h2 hrc
    rw [arcDerive, if_pos h1, if_neg h2, hrc]
  · intro curPos endPos centerPos radius cw e h1 h2 hrc
    rw [arcDerive, if_pos h1, if_neg h2, hrc]
  · intro eng endPos centerPos radius turns q rest hq
    have dF : ¬('R' = 'F') := by decide
    have dI : ¬('R' = 'I') := by decide
    have dJ : ¬('R' = 'J') := by decide
    have dK : ¬('R' = 'K') := by decide
    have dP : ¬('R' = 'P') := by decide
    rw [arcToArgs]
    dsimp only
    rw [if_neg dF, if_neg dI, if_neg dJ, if_neg dK, if_neg dP, if_pos rfl,
      if_pos hq]

/-- C6 witness: `R-1` on a fresh engine is rejected as a non-positive
radius. -/
theorem c6_arc_radius_center_witness :
    ((-1 : ℚ) ≤ 0) ∧
    arcToArgs (NewEngine allOkMachine bgf) zeroPosition zeroPosition 0 1
        [⟨'R', -1⟩] = ([], .error "expected a positive radius") :=
  ⟨by norm_num,
    c6_arc_radius_center.2.2.2.2.2 (NewEngine allOkMachine bgf) zeroPosition
      zeroPosition 0 1 (-1) [] (by norm_num)⟩

end Gcode
